import Mathlib

/-!
# CHIP-8 virtual machine (verhambot/chip8, `main.go`)

A shallow embedding of the interpreter core of `main.go`: the machine state
`Chip8`, the constructor `NewChip8`, the program loader `LoadROM`, the
fetch-decode-execute step `Cycle`, the timer tick `UpdateTimers` and `SetKey`.

Conventions of the embedding.

* Go's fixed-size arrays (`[4096]byte`, `[16]byte`, ...) are functions on `Nat`
  together with the array length; every indexing expression of the source goes
  through `index` / `assign` (or `index2` / `assign2` for the framebuffer),
  which return `none` when the index is outside the array, as Go's runtime
  panics with "index out of range".  So `none` = runtime panic.
* `uint16` / `uint8` arithmetic is arithmetic on `Nat` with an explicit
  `% 65536` / `% 256` at every place where the source can overflow.
* `rand.Intn(256)` is an extra argument `rnd` of `Cycle`.
* `os.ReadFile` is an argument of `LoadROM`: `none` when the read failed,
  `some bytes` when it returned the file's bytes.
-/

namespace Chip8VM

/-! ## Constants -/

def memorySize : Nat := 4096
def registerCount : Nat := 16
def stackSize : Nat := 16
def keyCount : Nat := 16
def displayWidth : Nat := 64
def displayHeight : Nat := 32
def startAddress : Nat := 0x200
def fontAddress : Nat := 0x50
def fontCount : Nat := 80

/-! ## Machine state -/

/-- The `Chip8` struct.  Arrays are functions on indices; only the cells below
the array length exist in the Go program. -/
structure Chip8 where
  memory : Nat → Nat
  v : Nat → Nat
  i : Nat
  pc : Nat
  sp : Nat
  stack : Nat → Nat
  delayTimer : Nat
  soundTimer : Nat
  display : Nat → Nat → Bool
  draw : Bool
  keys : Nat → Bool
  fontSet : Nat → Nat

/-- Array cell update `arr[k] = val`. -/
def setAt {α : Type} (arr : Nat → α) (k : Nat) (val : α) : Nat → α :=
  fun j => if j = k then val else arr j

/-- Checked read `arr[k]` of an array of length `size`. -/
def index {α : Type} (size : Nat) (arr : Nat → α) (k : Nat) : Option α :=
  if k < size then some (arr k) else none

/-- Checked write `arr[k] = val` of an array of length `size`. -/
def assign {α : Type} (size : Nat) (arr : Nat → α) (k : Nat) (val : α) : Option (Nat → α) :=
  if k < size then some (setAt arr k val) else none

/-- Checked read `display[x][y]` of the `[64][32]bool` framebuffer. -/
def index2 (d : Nat → Nat → Bool) (x y : Nat) : Option Bool :=
  if x < displayWidth ∧ y < displayHeight then some (d x y) else none

/-- Checked write `display[x][y] = b`. -/
def assign2 (d : Nat → Nat → Bool) (x y : Nat) (b : Bool) : Option (Nat → Nat → Bool) :=
  if x < displayWidth ∧ y < displayHeight then some (setAt d x (setAt (d x) y b)) else none

/-- The 80 bytes of the font literal in `NewChip8`. -/
def fontBytes : List Nat :=
  [0xF0, 0x90, 0x90, 0x90, 0xF0,
   0x20, 0x60, 0x20, 0x20, 0x70,
   0xF0, 0x10, 0xF0, 0x80, 0xF0,
   0xF0, 0x10, 0xF0, 0x10, 0xF0,
   0x90, 0x90, 0xF0, 0x10, 0x10,
   0xF0, 0x80, 0xF0, 0x10, 0xF0,
   0xF0, 0x80, 0xF0, 0x90, 0xF0,
   0xF0, 0x10, 0x20, 0x40, 0x40,
   0xF0, 0x90, 0xF0, 0x90, 0xF0,
   0xF0, 0x90, 0xF0, 0x10, 0xF0,
   0xF0, 0x90, 0xF0, 0x90, 0x90,
   0xE0, 0x90, 0xE0, 0x90, 0xE0,
   0xF0, 0x80, 0x80, 0x80, 0xF0,
   0xE0, 0x90, 0x90, 0x90, 0xE0,
   0xF0, 0x80, 0xF0, 0x80, 0xF0,
   0xF0, 0x80, 0xF0, 0x80, 0x80]

/-- The zero value of the struct with the `fontSet` literal filled in. -/
def zeroChip8 : Chip8 where
  memory := fun _ => 0
  v := fun _ => 0
  i := 0
  pc := 0
  sp := 0
  stack := fun _ => 0
  delayTimer := 0
  soundTimer := 0
  display := fun _ _ => false
  draw := false
  keys := fun _ => false
  fontSet := fun k => fontBytes.getD k 0

/-- `NewChip8`: the font is copied to `memory[0x50 ..]` (indices
`fontAddress + i < 4096` and `i < 80`, so the loop cannot panic) and
`pc = startAddress`. -/
def NewChip8 : Chip8 :=
  let c := zeroChip8
  let mem := (List.range fontCount).foldl
    (fun m k => setAt m (fontAddress + k) (c.fontSet k)) c.memory
  { c with memory := mem, pc := startAddress }

/-! ## Program loader -/

/-- The errors `LoadROM` returns. -/
inductive LoadError where
  | readFailure
  | romTooLarge (size max : Nat)
deriving DecidableEq, Repr

/-- The copy loop of `LoadROM`:
`for i := 0; i < len(rom); i++ { c.memory[startAddress+i] = rom[i] }`. -/
def copyROM (rom : List Nat) (mem : Nat → Nat) : Option (Nat → Nat) :=
  (List.range rom.length).foldlM
    (fun m k => do
      let b ← rom[k]?
      assign memorySize m (startAddress + k) b) mem

/-- `LoadROM`.  `file` is the result of `os.ReadFile` (`none`: read error).
The result is `none` on a runtime panic, else the state after the call with the
returned error (`none` for Go's `nil`). -/
def LoadROM (c : Chip8) (file : Option (List Nat)) : Option (Chip8 × Option LoadError) :=
  match file with
  | none => some (c, some LoadError.readFailure)
  | some rom =>
    if rom.length > memorySize - startAddress then
      some (c, some (LoadError.romTooLarge rom.length (memorySize - startAddress)))
    else do
      let mem ← copyROM rom c.memory
      pure ({ c with memory := mem }, none)

/-! ## Instruction executor -/

/-- `opcode := uint16(c.memory[c.pc])<<8 | uint16(c.memory[c.pc+1])`. -/
def fetch (c : Chip8) : Option Nat := do
  let hi ← index memorySize c.memory c.pc
  let lo ← index memorySize c.memory ((c.pc + 1) % 65536)
  pure (((hi <<< 8) % 65536) ||| lo)

/-- Register index `x := (opcode & 0x0F00) >> 8`. -/
def regX (opcode : Nat) : Nat := (opcode &&& 0x0F00) >>> 8

/-- Register index `y := (opcode & 0x00F0) >> 4`. -/
def regY (opcode : Nat) : Nat := (opcode &&& 0x00F0) >>> 4

/-- Literal byte `kk := byte(opcode & 0x00FF)`. -/
def lowByte (opcode : Nat) : Nat := (opcode &&& 0x00FF) % 256

/-- `00E0`: the two nested loops clearing the framebuffer, then `draw = true`. -/
def opCLS (c : Chip8) : Option Chip8 := do
  let d ← (List.range displayWidth).foldlM
    (fun d x => (List.range displayHeight).foldlM (fun d y => assign2 d x y false) d) c.display
  pure { c with display := d, draw := true }

/-- `00EE`: `c.sp--; c.pc = c.stack[c.sp]`. -/
def opRET (c : Chip8) : Option Chip8 := do
  let sp := (c.sp + 255) % 256
  let ret ← index stackSize c.stack sp
  pure { c with sp := sp, pc := ret }

/-- `2nnn`: `c.stack[c.sp] = c.pc; c.sp++; c.pc = opcode & 0x0FFF`. -/
def opCALL (c : Chip8) (opcode : Nat) : Option Chip8 := do
  let st ← assign stackSize c.stack c.sp c.pc
  pure { c with stack := st, sp := (c.sp + 1) % 256, pc := opcode &&& 0x0FFF }

/-- The skip `c.pc += 2`. -/
def skip (c : Chip8) : Chip8 := { c with pc := (c.pc + 2) % 65536 }

/-- The `0x8000` family. -/
def opALU (c : Chip8) (opcode : Nat) : Option Chip8 :=
  let x := regX opcode
  let y := regY opcode
  if opcode &&& 0x000F = 0x0000 then do
    let vy ← index registerCount c.v y
    let v ← assign registerCount c.v x vy
    pure { c with v := v }
  else if opcode &&& 0x000F = 0x0001 then do
    let vx ← index registerCount c.v x
    let vy ← index registerCount c.v y
    let v ← assign registerCount c.v x (vx ||| vy)
    pure { c with v := v }
  else if opcode &&& 0x000F = 0x0002 then do
    let vx ← index registerCount c.v x
    let vy ← index registerCount c.v y
    let v ← assign registerCount c.v x (vx &&& vy)
    pure { c with v := v }
  else if opcode &&& 0x000F = 0x0003 then do
    let vx ← index registerCount c.v x
    let vy ← index registerCount c.v y
    let v ← assign registerCount c.v x (vx ^^^ vy)
    pure { c with v := v }
  else if opcode &&& 0x000F = 0x0004 then do
    let vx ← index registerCount c.v x
    let vy ← index registerCount c.v y
    let sum := (vx + vy) % 65536
    let v1 ← assign registerCount c.v 0xF (if sum > 0xFF then 1 else 0)
    let v2 ← assign registerCount v1 x (sum % 256)
    pure { c with v := v2 }
  else if opcode &&& 0x000F = 0x0005 then do
    let vx ← index registerCount c.v x
    let vy ← index registerCount c.v y
    let v1 ← assign registerCount c.v 0xF (if vx > vy then 1 else 0)
    let vx1 ← index registerCount v1 x
    let vy1 ← index registerCount v1 y
    let v2 ← assign registerCount v1 x ((vx1 + 256 - vy1 % 256) % 256)
    pure { c with v := v2 }
  else if opcode &&& 0x000F = 0x0006 then do
    let vx ← index registerCount c.v x
    let v1 ← assign registerCount c.v 0xF (vx &&& 1)
    let vx1 ← index registerCount v1 x
    let v2 ← assign registerCount v1 x (vx1 >>> 1)
    pure { c with v := v2 }
  else if opcode &&& 0x000F = 0x0007 then do
    let vy ← index registerCount c.v y
    let vx ← index registerCount c.v x
    let v1 ← assign registerCount c.v 0xF (if vy > vx then 1 else 0)
    let vy1 ← index registerCount v1 y
    let vx1 ← index registerCount v1 x
    let v2 ← assign registerCount v1 x ((vy1 + 256 - vx1 % 256) % 256)
    pure { c with v := v2 }
  else if opcode &&& 0x000F = 0x000E then do
    let vx ← index registerCount c.v x
    let v1 ← assign registerCount c.v 0xF ((vx &&& 0x80) >>> 7)
    let vx1 ← index registerCount v1 x
    let v2 ← assign registerCount v1 x ((vx1 <<< 1) % 256)
    pure { c with v := v2 }
  else some c

/-- Body of the inner loop of `Dxyn` for column `xLine` of sprite row `yLine`
whose byte is `pixel`; `x`, `y` are the locals read before the loops. -/
def drawBit (x y yLine pixel : Nat) (c : Chip8) (xLine : Nat) : Option Chip8 :=
  if pixel &&& (0x80 >>> xLine) ≠ 0 then do
    let xPos := ((x + xLine) % 65536) % displayWidth
    let yPos := ((y + yLine) % 65536) % displayHeight
    let lit ← index2 c.display xPos yPos
    let v ← if lit then assign registerCount c.v 0xF 1 else some c.v
    let cur ← index2 c.display xPos yPos
    let d ← assign2 c.display xPos yPos (!cur)
    pure { c with v := v, display := d }
  else some c

/-- Body of the outer loop of `Dxyn` for sprite row `yLine`. -/
def drawRow (x y : Nat) (c : Chip8) (yLine : Nat) : Option Chip8 := do
  let pixel ← index memorySize c.memory ((c.i + yLine) % 65536)
  (List.range 8).foldlM (drawBit x y yLine pixel) c

/-- `Dxyn`. -/
def opDRW (c : Chip8) (opcode : Nat) : Option Chip8 := do
  let x ← index registerCount c.v (regX opcode)
  let y ← index registerCount c.v (regY opcode)
  let height := opcode &&& 0x000F
  let v ← assign registerCount c.v 0xF 0
  let c1 ← (List.range height).foldlM (drawRow x y) { c with v := v }
  pure { c1 with draw := true }

/-- The `0xE000` family. -/
def opKEY (c : Chip8) (opcode : Nat) : Option Chip8 :=
  let x := regX opcode
  if opcode &&& 0x00FF = 0x009E then do
    let vx ← index registerCount c.v x
    let pressed ← index keyCount c.keys vx
    pure (if pressed then skip c else c)
  else if opcode &&& 0x00FF = 0x00A1 then do
    let vx ← index registerCount c.v x
    let pressed ← index keyCount c.keys vx
    pure (if !pressed then skip c else c)
  else some c

/-- The key scan of `Fx0A`: the first index of the list whose key is pressed
(`some k`), or `none` when the loop ends without a `break`. -/
def scanKeys (keys : Nat → Bool) : List Nat → Option (Option Nat)
  | [] => some none
  | k :: rest => do
    let pressed ← index keyCount keys k
    if pressed then pure (some k) else scanKeys keys rest

/-- `Fx55`: the copy loop `c.memory[c.i+i] = c.v[i]` for `i = 0 .. x`. -/
def storeRegs (c : Chip8) (x : Nat) : Option (Nat → Nat) :=
  (List.range (x + 1)).foldlM
    (fun m k => do
      let vk ← index registerCount c.v k
      assign memorySize m ((c.i + k) % 65536) vk) c.memory

/-- `Fx65`: the copy loop `c.v[i] = c.memory[c.i+i]` for `i = 0 .. x`. -/
def loadRegs (c : Chip8) (x : Nat) : Option (Nat → Nat) :=
  (List.range (x + 1)).foldlM
    (fun v k => do
      let b ← index memorySize c.memory ((c.i + k) % 65536)
      assign registerCount v k b) c.v

/-- The `0xF000` family. -/
def opF (c : Chip8) (opcode : Nat) : Option Chip8 :=
  let x := regX opcode
  if opcode &&& 0x00FF = 0x0007 then do
    let v ← assign registerCount c.v x c.delayTimer
    pure { c with v := v }
  else if opcode &&& 0x00FF = 0x000A then do
    let found ← scanKeys c.keys (List.range keyCount)
    match found with
    | some k => do
      let v ← assign registerCount c.v x (k % 256)
      pure { c with v := v }
    | none => pure { c with pc := (c.pc + 65536 - 2) % 65536 }
  else if opcode &&& 0x00FF = 0x0015 then do
    let vx ← index registerCount c.v x
    pure { c with delayTimer := vx }
  else if opcode &&& 0x00FF = 0x0018 then do
    let vx ← index registerCount c.v x
    pure { c with soundTimer := vx }
  else if opcode &&& 0x00FF = 0x001E then do
    let vx ← index registerCount c.v x
    let v1 ← assign registerCount c.v 0xF (if (c.i + vx) % 65536 > 0xFFF then 1 else 0)
    let vx1 ← index registerCount v1 x
    pure { c with v := v1, i := (c.i + vx1) % 65536 }
  else if opcode &&& 0x00FF = 0x0029 then do
    let vx ← index registerCount c.v x
    pure { c with i := (fontAddress + (vx * 5) % 65536) % 65536 }
  else if opcode &&& 0x00FF = 0x0033 then do
    let vx ← index registerCount c.v x
    let m1 ← assign memorySize c.memory c.i (vx / 100)
    let vx1 ← index registerCount c.v x
    let m2 ← assign memorySize m1 ((c.i + 1) % 65536) ((vx1 / 10) % 10)
    let vx2 ← index registerCount c.v x
    let m3 ← assign memorySize m2 ((c.i + 2) % 65536) (vx2 % 10)
    pure { c with memory := m3 }
  else if opcode &&& 0x00FF = 0x0055 then do
    let m ← storeRegs c x
    pure { c with memory := m, i := (c.i + (x + 1) % 65536) % 65536 }
  else if opcode &&& 0x00FF = 0x0065 then do
    let v ← loadRegs c x
    pure { c with v := v, i := (c.i + (x + 1) % 65536) % 65536 }
  else some c

/-- The `switch opcode & 0xF000` of `Cycle`, run on the state whose `pc` has
already been advanced by 2. -/
def execute (c : Chip8) (opcode rnd : Nat) : Option Chip8 :=
  let x := regX opcode
  let y := regY opcode
  let kk := lowByte opcode
  if opcode &&& 0xF000 = 0x0000 then
    if opcode &&& 0x00FF = 0x00E0 then opCLS c
    else if opcode &&& 0x00FF = 0x00EE then opRET c
    else some c
  else if opcode &&& 0xF000 = 0x1000 then
    some { c with pc := opcode &&& 0x0FFF }
  else if opcode &&& 0xF000 = 0x2000 then opCALL c opcode
  else if opcode &&& 0xF000 = 0x3000 then do
    let vx ← index registerCount c.v x
    pure (if vx = kk then skip c else c)
  else if opcode &&& 0xF000 = 0x4000 then do
    let vx ← index registerCount c.v x
    pure (if vx ≠ kk then skip c else c)
  else if opcode &&& 0xF000 = 0x5000 then do
    let vx ← index registerCount c.v x
    let vy ← index registerCount c.v y
    pure (if vx = vy then skip c else c)
  else if opcode &&& 0xF000 = 0x6000 then do
    let v ← assign registerCount c.v x kk
    pure { c with v := v }
  else if opcode &&& 0xF000 = 0x7000 then do
    let vx ← index registerCount c.v x
    let v ← assign registerCount c.v x ((vx + kk) % 256)
    pure { c with v := v }
  else if opcode &&& 0xF000 = 0x8000 then opALU c opcode
  else if opcode &&& 0xF000 = 0x9000 then do
    let vx ← index registerCount c.v x
    let vy ← index registerCount c.v y
    pure (if vx ≠ vy then skip c else c)
  else if opcode &&& 0xF000 = 0xA000 then
    some { c with i := opcode &&& 0x0FFF }
  else if opcode &&& 0xF000 = 0xB000 then do
    let v0 ← index registerCount c.v 0
    pure { c with pc := ((opcode &&& 0x0FFF) + v0) % 65536 }
  else if opcode &&& 0xF000 = 0xC000 then do
    let v ← assign registerCount c.v x ((rnd % 256) &&& kk)
    pure { c with v := v }
  else if opcode &&& 0xF000 = 0xD000 then opDRW c opcode
  else if opcode &&& 0xF000 = 0xE000 then opKEY c opcode
  else if opcode &&& 0xF000 = 0xF000 then opF c opcode
  else some c

/-- `Cycle`: fetch, `c.pc += 2`, then the opcode switch.  `rnd` is the value
`rand.Intn(256)` returns if the instruction asks for one. -/
def Cycle (c : Chip8) (rnd : Nat) : Option Chip8 := do
  let opcode ← fetch c
  execute { c with pc := (c.pc + 2) % 65536 } opcode rnd

/-- Successive `Cycle` calls, one per element of `rnds` (the random draws). -/
def Cycles (c : Chip8) (rnds : List Nat) : Option Chip8 :=
  rnds.foldlM Cycle c

/-! ## Timer ticker and keypad -/

/-- `UpdateTimers`. -/
def UpdateTimers (c : Chip8) : Chip8 :=
  let c1 := if c.delayTimer > 0 then { c with delayTimer := c.delayTimer - 1 } else c
  if c1.soundTimer > 0 then { c1 with soundTimer := c1.soundTimer - 1 } else c1

/-- `SetKey`: `c.keys[key] = pressed` with `key` an `int`. -/
def SetKey (c : Chip8) (key : Int) (pressed : Bool) : Option Chip8 :=
  if key < 0 then none
  else do
    let ks ← assign keyCount c.keys key.toNat pressed
    pure { c with keys := ks }

/-! ## Example states -/

/-- `NewChip8` with the opcode bytes `hi lo` stored at 0x200, the registers
taken from `regs` (missing ones 0) and `I = idx`. -/
def exampleState (hi lo : Nat) (regs : List Nat) (idx : Nat) : Chip8 :=
  { NewChip8 with
    memory := setAt (setAt NewChip8.memory 0x200 hi) 0x201 lo
    v := fun k => regs.getD k 0
    i := idx }

/-- State for `8014` (ADD V0,V1) with V0 = 200 and V1 = 100 (the sum carries). -/
def addEx : Chip8 :=
  exampleState 0x80 0x14 [200, 100] 0

/-- State for `8F14` (ADD VF,V1) with V1 = 1 and VF = 1. -/
def addCex : Chip8 :=
  exampleState 0x8F 0x14 [0, 1, 0, 0, 0, 0, 0, 0, 0, 0, 0, 0, 0, 0, 0, 1] 0

/-- State for `80F5` (SUB V0,VF) with V0 = 5 and VF = 3. -/
def subCexY : Chip8 :=
  exampleState 0x80 0xF5 [5, 0, 0, 0, 0, 0, 0, 0, 0, 0, 0, 0, 0, 0, 0, 3] 0

/-- State for `8F15` (SUB VF,V1) with VF = 5 and V1 = 3. -/
def subCexX : Chip8 :=
  exampleState 0x8F 0x15 [0, 3, 0, 0, 0, 0, 0, 0, 0, 0, 0, 0, 0, 0, 0, 5] 0

/-- State for `8125` (SUB V1,V2) with V1 = 3 and V2 = 5. -/
def subEx : Chip8 :=
  exampleState 0x81 0x25 [0, 3, 5] 0

/-- State for `D125` at 0x200: draws the 5-row glyph of digit 0 (at the font
address) at `(V1, V2) = (60, 30)`, with the cell `(60, 30)` already lit and
`VF = 7`. -/
def drawEx : Chip8 :=
  { exampleState 0xD1 0x25 [0, 60, 30, 0, 0, 0, 0, 0, 0, 0, 0, 0, 0, 0, 0, 7] fontAddress with
    display := fun px py => px == 60 && py == 30 }

/-- State with `D011` stored twice, at 0x200 and 0x202, `I = 0x300`,
`memory[0x300] = 0xFF`, `(V0, V1) = (62, 5)` and an all-clear framebuffer. -/
def drawTwiceEx : Chip8 :=
  { NewChip8 with
    memory := setAt (setAt (setAt (setAt (setAt NewChip8.memory
      0x200 0xD0) 0x201 0x11) 0x202 0xD0) 0x203 0x11) 0x300 0xFF
    v := fun k => [62, 5].getD k 0
    i := 0x300 }

/-- State with `F255` at 0x200 and `F265` at 0x202, `I = 0x300` and
`V0, V1, V2, V3 = 11, 22, 33, 44`. -/
def storeLoadEx : Chip8 :=
  { NewChip8 with
    memory := setAt (setAt (setAt (setAt NewChip8.memory
      0x200 0xF2) 0x201 0x55) 0x202 0xF2) 0x203 0x65
    v := fun k => [11, 22, 33, 44].getD k 0
    i := 0x300 }

/-- State for `F333` (LD B,V3) with `V3 = 234` and `I = 0x300`. -/
def bcdEx : Chip8 :=
  exampleState 0xF3 0x33 [0, 0, 0, 234] 0x300

/-- State for `F50A` (LD V5,K) with no key pressed. -/
def waitKeyEx : Chip8 :=
  exampleState 0xF5 0x0A [1, 2, 3] 0

/-- State for `F30A` (LD V3,K) with keys 6 and 9 held down. -/
def keyPressedEx : Chip8 :=
  { exampleState 0xF3 0x0A [1, 2, 3, 4] 0 with keys := fun k => k == 6 || k == 9 }

/-- State for `00E0` (CLS) with the cells on the diagonal lit and the redraw
flag down. -/
def clsEx : Chip8 :=
  { exampleState 0x00 0xE0 [1, 2, 3] 0x123 with display := fun px py => px == py }

/-- State with `2300` (CALL 0x300) at 0x200, `00EE` (RET) at 0x300 and
`SP = 15`. -/
def callRetEx : Chip8 :=
  { NewChip8 with
    memory := setAt (setAt (setAt (setAt NewChip8.memory
      0x200 0x23) 0x201 0x00) 0x300 0x00) 0x301 0xEE
    sp := 15 }

/-- State for `F21E` (ADD I,V2) with `I = 0xFF0` and `V2 = 0x20`. -/
def addIEx : Chip8 :=
  exampleState 0xF2 0x1E [0, 0, 0x20] 0xFF0

/-- State for `F01E` (ADD I,V0) with `I = 0xFFFF` and `V0 = 1`. -/
def addIWrapCex : Chip8 :=
  exampleState 0xF0 0x1E [1] 0xFFFF

/-- State for `FF1E` (ADD I,VF) with `I = 0x10` and `VF = 7`. -/
def addIFlagCex : Chip8 :=
  exampleState 0xFF 0x1E [0, 0, 0, 0, 0, 0, 0, 0, 0, 0, 0, 0, 0, 0, 0, 7] 0x10

/-- State for `8128`, an opcode of the `0x8000` family with no case. -/
def noCaseEx : Chip8 :=
  exampleState 0x81 0x28 [1, 2, 3] 0x123

/-- State for `5001`: family `0x5000` with low nibble 1. -/
def skipCex : Chip8 :=
  exampleState 0x50 0x01 [] 0

/-- State for `01EE`: family `0x0000`, low byte `EE`, with `SP = 1` and
`stack[0] = 0x400`. -/
def retCex : Chip8 :=
  { exampleState 0x01 0xEE [] 0 with sp := 1, stack := fun k => if k = 0 then 0x400 else 0 }

/-- State for `00EE` (RET) on the fresh machine, `SP = 0`. -/
def retPanicEx : Chip8 :=
  exampleState 0x00 0xEE [] 0

/-- State for `E09E` (SKP V0) with `V0 = 16`. -/
def keyPanicEx : Chip8 :=
  exampleState 0xE0 0x9E [16] 0

/-- State for `D001` (DRW V0,V0,1) with `I = 4096`. -/
def drawPanicEx : Chip8 :=
  exampleState 0xD0 0x01 [] 4096

/-! ## The driver loop -/

/-- What the loop of `main` does to the machine: it overwrites the keypad
(any keypad input), runs `Cycle`, runs `UpdateTimers`, clears the redraw flag. -/
inductive DriverStep where
  | setKeys (keys : Nat → Bool)
  | cycle (rnd : Nat)
  | tick
  | clearDraw

/-- One action of the driver loop; `none` is a runtime panic. -/
def driverStep (c : Chip8) : DriverStep → Option Chip8
  | DriverStep.setKeys ks => some { c with keys := ks }
  | DriverStep.cycle rnd => Cycle c rnd
  | DriverStep.tick => some (UpdateTimers c)
  | DriverStep.clearDraw => some { c with draw := false }

/-- A sequence of driver actions. -/
def drive (c : Chip8) (steps : List DriverStep) : Option Chip8 :=
  steps.foldlM driverStep c

/-- The instruction at `pc`, if it is `1nnn`, `2nnn` or `Bnnn`, transfers
control to an even address (`nnn`, resp. `nnn + V0`). -/
def jumpTargetEven (c : Chip8) : Bool :=
  match fetch c with
  | none => true
  | some op =>
    if op &&& 0xF000 = 0x1000 ∨ op &&& 0xF000 = 0x2000 then (op &&& 0x0FFF) % 2 == 0
    else if op &&& 0xF000 = 0xB000 then ((op &&& 0x0FFF) + c.v 0) % 2 == 0
    else true

/-- Every `Cycle` of the run starts at an instruction with an even jump target. -/
def evenTargetsAlong (c : Chip8) : List DriverStep → Bool
  | [] => true
  | s :: rest =>
    (match s with
      | DriverStep.cycle _ => jumpTargetEven c
      | _ => true) &&
    (match driverStep c s with
      | some c1 => evenTargetsAlong c1 rest
      | none => true)

/-- PC and all 16 stack slots are even. -/
def EvenPC (c : Chip8) : Prop :=
  c.pc % 2 = 0 ∧ ∀ k : Nat, k < 16 → c.stack k % 2 = 0

/-- The stack is untouched and PC is kept, skipped over (`+2`) or rolled
back (`-2`). -/
def Near (c c1 : Chip8) : Prop :=
  c1.stack = c.stack ∧
    (c1.pc = c.pc ∨ c1.pc = (c.pc + 2) % 65536 ∨ c1.pc = (c.pc + 65536 - 2) % 65536)

/-- State after loading `12 04` (JP 0x204). -/
def jumpEvenEx : Chip8 :=
  { NewChip8 with memory := setAt (setAt NewChip8.memory 0x200 0x12) 0x201 0x04 }

/-- The driver actions of one frame: keypad write, `Cycle`, timer tick, redraw
flag cleared. -/
def frameEx : List DriverStep :=
  [DriverStep.setKeys (fun k => k == 3), DriverStep.cycle 0, DriverStep.tick,
    DriverStep.clearDraw]

/-- State after `frameEx` from `jumpEvenEx`. -/
def jumpEvenEnd : Chip8 :=
  { jumpEvenEx with keys := fun k => k == 3, pc := 0x204 }

/-- State after loading `12 01` (JP 0x201). -/
def jumpOddCex : Chip8 :=
  { NewChip8 with memory := setAt (setAt NewChip8.memory 0x200 0x12) 0x201 0x01 }

/-! ## Basic lemmas on arrays -/

theorem setAt_same {α : Type} (arr : Nat → α) (k : Nat) (val : α) :
    setAt arr k val k = val := by
  simp [setAt]

theorem setAt_other {α : Type} (arr : Nat → α) (k j : Nat) (val : α) (h : j ≠ k) :
    setAt arr k val j = arr j := by
  simp [setAt, h]

theorem index_lt {α : Type} (size : Nat) (arr : Nat → α) (k : Nat) (h : k < size) :
    index size arr k = some (arr k) := by
  simp [index, h]

theorem assign_lt {α : Type} (size : Nat) (arr : Nat → α) (k : Nat) (val : α) (h : k < size) :
    assign size arr k val = some (setAt arr k val) := by
  simp [assign, h]


/-! ## Opcode decoding -/

theorem and_F000 (op : Nat) : op &&& 0xF000 = op / 4096 % 16 * 4096 := by
  apply Nat.eq_of_testBit_eq
  intro j
  have h1 : (0xF000 : Nat) = (2^4 - 1) <<< 12 := by decide
  have h2 : op / 4096 % 16 * 4096 = (op >>> 12 &&& (2^4 - 1)) <<< 12 := by
    rw [Nat.and_pow_two_sub_one_eq_mod, Nat.shiftLeft_eq, Nat.shiftRight_eq_div_pow]
  rw [h2, h1]
  simp only [Nat.testBit_and, Nat.testBit_shiftLeft, Nat.testBit_shiftRight,
    Nat.testBit_two_pow_sub_one]
  by_cases hj : j ≥ 12
  · simp [hj]
  · simp [hj]

theorem shr_and (op m k : Nat) : (op &&& m) >>> k = (op >>> k) &&& (m >>> k) := by
  apply Nat.eq_of_testBit_eq
  intro j
  simp only [Nat.testBit_and, Nat.testBit_shiftRight]

theorem regX_eq (op : Nat) : regX op = op / 256 % 16 := by
  unfold regX
  rw [shr_and]
  have : (0x0F00 : Nat) >>> 8 = 2^4 - 1 := by decide
  rw [this, Nat.and_pow_two_sub_one_eq_mod, Nat.shiftRight_eq_div_pow]

theorem regY_eq (op : Nat) : regY op = op / 16 % 16 := by
  unfold regY
  rw [shr_and]
  have : (0x00F0 : Nat) >>> 4 = 2^4 - 1 := by decide
  rw [this, Nat.and_pow_two_sub_one_eq_mod, Nat.shiftRight_eq_div_pow]

theorem and_000F (op : Nat) : op &&& 0x000F = op % 16 := by
  have : (0x000F : Nat) = 2^4 - 1 := by decide
  rw [this, Nat.and_pow_two_sub_one_eq_mod]

theorem and_00FF (op : Nat) : op &&& 0x00FF = op % 256 := by
  have : (0x00FF : Nat) = 2^8 - 1 := by decide
  rw [this, Nat.and_pow_two_sub_one_eq_mod]

theorem and_0FFF (op : Nat) : op &&& 0x0FFF = op % 4096 := by
  have : (0x0FFF : Nat) = 2^12 - 1 := by decide
  rw [this, Nat.and_pow_two_sub_one_eq_mod]

theorem lowByte_eq (op : Nat) : lowByte op = op % 256 := by
  unfold lowByte
  rw [and_00FF, Nat.mod_mod]

theorem and_two_pow_ne_zero (p k : Nat) : p &&& 2 ^ k ≠ 0 ↔ p.testBit k = true := by
  constructor
  · intro h
    by_contra hb
    apply h
    apply Nat.eq_of_testBit_eq
    intro j
    simp only [Nat.testBit_and, Nat.testBit_two_pow, Nat.zero_testBit]
    by_cases hj : k = j
    · subst hj; simp [hb]
    · simp [hj]
  · intro hb h
    have : (p &&& 2 ^ k).testBit k = true := by
      simp [Nat.testBit_and, Nat.testBit_two_pow, hb]
    rw [h] at this
    simp at this

/-- The sprite-bit test `pixel & (0x80 >> xLine) != 0` reads bit `7 - xLine`. -/
theorem spriteBit (p col : Nat) (hcol : col < 8) :
    p &&& (0x80 >>> col) ≠ 0 ↔ p.testBit (7 - col) = true := by
  have : (0x80 : Nat) >>> col = 2 ^ (7 - col) := by
    interval_cases col <;> decide
  rw [this]
  exact and_two_pow_ne_zero p (7 - col)

/-- A cycle whose fetch yields `op` runs the opcode switch on the state with
`pc` advanced by 2. -/
theorem Cycle_of_fetch (c : Chip8) (op rnd : Nat) (h : fetch c = some op) :
    Cycle c rnd = execute { c with pc := (c.pc + 2) % 65536 } op rnd := by
  simp [Cycle, h]

/-- A successful fetch means `pc` and `pc + 1` are inside memory. -/
theorem fetch_bound (c : Chip8) (op : Nat) (h : fetch c = some op) : c.pc + 1 < 4096 := by
  unfold fetch index at h
  simp only [memorySize] at h
  by_cases h1 : c.pc < 4096
  · by_cases h2 : (c.pc + 1) % 65536 < 4096
    · omega
    · simp [h1, h2] at h
  · simp [h1] at h

/-! ## Program loader -/

theorem foldlM_range_succ {β : Type} (f : β → Nat → Option β) (b : β) (n : Nat) :
    (List.range (n + 1)).foldlM f b = ((List.range n).foldlM f b).bind (fun b1 => f b1 n) := by
  rw [List.range_succ, List.foldlM_append]
  cases h : List.foldlM f b (List.range n) <;> simp [List.foldlM_cons, List.foldlM_nil]

theorem copyROM_loop (rom : List Nat) (mem : Nat → Nat) (hlen : rom.length ≤ 3584) :
    ∀ k, k ≤ rom.length →
      ∃ m, (List.range k).foldlM
          (fun m k => do
            let b ← rom[k]?
            assign memorySize m (startAddress + k) b) mem = some m ∧
        ∀ j, m j = if 512 ≤ j ∧ j < 512 + k then rom.getD (j - 512) 0 else mem j := by
  intro k
  induction k with
  | zero =>
    intro _
    refine ⟨mem, rfl, ?_⟩
    intro j
    have : ¬ (512 ≤ j ∧ j < 512 + 0) := by omega
    simp [this]
  | succ k ih =>
    intro hk
    obtain ⟨m, hm, hcell⟩ := ih (by omega)
    have hk1 : k < rom.length := by omega
    refine ⟨setAt m (startAddress + k) rom[k], ?_, ?_⟩
    · rw [foldlM_range_succ, hm]
      simp [List.getElem?_eq_getElem hk1, assign, memorySize, startAddress]
      omega
    · intro j
      by_cases hj : j = 512 + k
      · subst hj
        have : 512 ≤ 512 + k ∧ 512 + k < 512 + (k + 1) := by omega
        simp [setAt, startAddress, this, List.getD_eq_getElem?_getD, List.getElem?_eq_getElem hk1]
      · rw [setAt_other _ _ _ _ (by simpa [startAddress] using hj), hcell j]
        by_cases h1 : 512 ≤ j ∧ j < 512 + k
        · have h2 : 512 ≤ j ∧ j < 512 + (k + 1) := by omega
          simp [h1, h2]
        · have h2 : ¬ (512 ≤ j ∧ j < 512 + (k + 1)) := by omega
          simp [h1, h2]

theorem copyROM_spec (rom : List Nat) (mem : Nat → Nat) (hlen : rom.length ≤ 3584) :
    ∃ m, copyROM rom mem = some m ∧
      ∀ j, m j = if 512 ≤ j ∧ j < 512 + rom.length then rom.getD (j - 512) 0 else mem j :=
  copyROM_loop rom mem hlen rom.length (Nat.le_refl _)

/-- C1. Loading a byte sequence of length at most 3584 succeeds (no error, no
panic); afterwards `memory[512+k]` is the k-th input byte for every `k < len`,
every other memory cell is unchanged and so is every other field of the state. -/
theorem LoadROM_success (c : Chip8) (rom : List Nat) (hlen : rom.length ≤ 3584) :
    ∃ c1, LoadROM c (some rom) = some (c1, none) ∧
      (∀ k (hk : k < rom.length), c1.memory (512 + k) = rom[k]) ∧
      (∀ j, j < 512 ∨ 512 + rom.length ≤ j → c1.memory j = c.memory j) ∧
      c1 = { c with memory := c1.memory } := by
  obtain ⟨m, hm, hcell⟩ := copyROM_spec rom c.memory hlen
  refine ⟨{ c with memory := m }, ?_, ?_, ?_, rfl⟩
  · have : ¬ rom.length > memorySize - startAddress := by
      simp [memorySize, startAddress]; omega
    simp [LoadROM, this, hm]
  · intro k hk
    show m (512 + k) = rom[k]
    rw [hcell]
    have : 512 ≤ 512 + k ∧ 512 + k < 512 + rom.length := by omega
    simp [this, List.getD_eq_getElem?_getD, List.getElem?_eq_getElem hk]
  · intro j hj
    show m j = c.memory j
    rw [hcell]
    have : ¬ (512 ≤ j ∧ j < 512 + rom.length) := by omega
    simp [this]

/-- Instance of C1: loading three bytes into the fresh machine. -/
theorem LoadROM_success_witness :
    [0x60, 0x0A, 0x61].length ≤ 3584 ∧
    ∃ c1, LoadROM NewChip8 (some [0x60, 0x0A, 0x61]) = some (c1, none) ∧
      (∀ k (hk : k < [0x60, 0x0A, 0x61].length), c1.memory (512 + k) = [0x60, 0x0A, 0x61][k]) ∧
      (∀ j, j < 512 ∨ 512 + [0x60, 0x0A, 0x61].length ≤ j → c1.memory j = NewChip8.memory j) ∧
      c1 = { NewChip8 with memory := c1.memory } :=
  ⟨by decide, LoadROM_success NewChip8 [0x60, 0x0A, 0x61] (by decide)⟩

/-- C2. Given the bytes of a file, `LoadROM` returns the too-large error exactly
when there are more than 3584 (= 4096 - 512) bytes, it returns no other error,
and whenever it returns an error the state is the one before the call. -/
theorem LoadROM_too_large (c : Chip8) (rom : List Nat) :
    (LoadROM c (some rom) = some (c, some (LoadError.romTooLarge rom.length 3584))
        ↔ rom.length > 3584) ∧
    ((∃ c1 e, LoadROM c (some rom) = some (c1, some e)) ↔ rom.length > 3584) ∧
    (∀ c1 e, LoadROM c (some rom) = some (c1, some e) →
        c1 = c ∧ e = LoadError.romTooLarge rom.length 3584) := by
  by_cases h : rom.length > 3584
  · have h1 : rom.length > memorySize - startAddress := by
      simpa [memorySize, startAddress] using h
    have hL : LoadROM c (some rom) = some (c, some (LoadError.romTooLarge rom.length 3584)) := by
      unfold LoadROM
      simp only [if_pos h1]
      simp [memorySize, startAddress]
    refine ⟨⟨fun _ => h, fun _ => hL⟩, ⟨fun _ => h, fun _ => ⟨c, _, hL⟩⟩, ?_⟩
    intro c1 e he
    rw [hL] at he
    simp at he
    exact ⟨he.1.symm, he.2.symm⟩
  · obtain ⟨c1, h1, _⟩ := LoadROM_success c rom (by omega)
    refine ⟨⟨fun hL => ?_, fun h2 => absurd h2 h⟩, ⟨fun hL => ?_, fun h2 => absurd h2 h⟩, ?_⟩
    · rw [h1] at hL; simp at hL
    · obtain ⟨c2, e, hL⟩ := hL
      rw [h1] at hL; simp at hL
    · intro c2 e hL
      rw [h1] at hL; simp at hL
/-! ## 8xy4 and 8xy5 -/

/-- C3 (amended). One cycle on `8xy4` with 8-bit `a = Vx`, `b = Vy` leaves
`Vx = (a+b) mod 256` for every `x`, `y` in 0..15, and `VF = 1` if `a+b > 255`,
else `0`, provided `x` is not 15: the flag is written before the sum, so for
`x = 15` register VF ends up holding the sum. -/
theorem ADD_8xy4 (c : Chip8) (rnd x y : Nat) (hx : x < 16) (hy : y < 16)
    (hf : fetch c = some (0x8004 + x * 256 + y * 16))
    (ha : c.v x < 256) (hb : c.v y < 256) :
    ∃ c1, Cycle c rnd = some c1 ∧
      c1.v x = (c.v x + c.v y) % 256 ∧
      (x ≠ 15 → c1.v 15 = if c.v x + c.v y > 255 then 1 else 0) := by
  have hF : (0x8004 + x * 256 + y * 16) &&& 0xF000 = 0x8000 := by
    rw [and_F000]; omega
  have hN : (0x8004 + x * 256 + y * 16) &&& 0x000F = 4 := by
    rw [and_000F]; omega
  have hX : regX (0x8004 + x * 256 + y * 16) = x := by
    rw [regX_eq]; omega
  have hY : regY (0x8004 + x * 256 + y * 16) = y := by
    rw [regY_eq]; omega
  rw [Cycle_of_fetch c _ rnd hf]
  simp only [execute, hF, opALU, hN, hX, hY]
  simp only [index, assign, registerCount, hx, hy]
  simp only [Nat.reduceEqDiff, if_false, if_true, Nat.reduceLT, Option.some_bind,
    Option.bind_eq_bind, Option.pure_def]
  refine ⟨_, rfl, ?_, ?_⟩
  · simp only [setAt]
    simp
    omega
  · intro hx15
    simp only [setAt]
    have : ¬ (15 = x) := fun h => hx15 h.symm
    simp [this]
    have h1 : (c.v x + c.v y) % 65536 = c.v x + c.v y := by omega
    rw [h1]

/-- Instance of C3 (amended) on `8014` with `V0 = 200`, `V1 = 100` (a carry). -/
theorem ADD_8xy4_witness :
    ∃ c1, Cycle addEx 0 = some c1 ∧
      c1.v 0 = (addEx.v 0 + addEx.v 1) % 256 ∧
      ((0 : Nat) ≠ 15 → c1.v 15 = if addEx.v 0 + addEx.v 1 > 255 then 1 else 0) :=
  ADD_8xy4 addEx 0 0 1 (by decide) (by decide) (by decide) (by decide) (by decide)

/-- C3 as stated fails for `x = 15`: on `8F14` with `VF = 1`, `V1 = 1` the sum
does not carry, yet VF is 2 after the cycle, not 0. -/
theorem ADD_8xy4_flag_counterexample :
    fetch addCex = some 0x8F14 ∧ addCex.v 15 = 1 ∧ addCex.v 1 = 1 ∧
    (Cycle addCex 0).map (fun c => c.v 15) = some 2 ∧
    ¬ ((Cycle addCex 0).map (fun c => c.v 15)
        = some (if addCex.v 15 + addCex.v 1 > 255 then 1 else 0)) := by
  decide

/-- C4 (amended). One cycle on `8xy5` with 8-bit `a = Vx`, `b = Vy` (values
before the cycle) and `x` in 0..14 leaves `VF = 1` if `a > b`, else `0`; if
moreover `y` is in 0..14, `Vx = (a-b) mod 256`. -/
theorem SUB_8xy5 (c : Chip8) (rnd x y : Nat) (hx : x < 15) (hy : y < 16)
    (hf : fetch c = some (0x8005 + x * 256 + y * 16))
    (ha : c.v x < 256) (hb : c.v y < 256) :
    ∃ c1, Cycle c rnd = some c1 ∧
      (c1.v 15 = if c.v x > c.v y then 1 else 0) ∧
      (y ≠ 15 → (c1.v x : Int) = ((c.v x : Int) - (c.v y : Int)) % 256) := by
  have hF : (0x8005 + x * 256 + y * 16) &&& 0xF000 = 0x8000 := by
    rw [and_F000]; omega
  have hN : (0x8005 + x * 256 + y * 16) &&& 0x000F = 5 := by
    rw [and_000F]; omega
  have hX : regX (0x8005 + x * 256 + y * 16) = x := by
    rw [regX_eq]; omega
  have hY : regY (0x8005 + x * 256 + y * 16) = y := by
    rw [regY_eq]; omega
  have hx16 : x < 16 := by omega
  rw [Cycle_of_fetch c _ rnd hf]
  simp only [execute, hF, opALU, hN, hX, hY]
  simp only [index, assign, registerCount, hx16, hy]
  simp only [Nat.reduceEqDiff, if_false, if_true, Nat.reduceLT, Option.some_bind,
    Option.bind_eq_bind, Option.pure_def]
  refine ⟨_, rfl, ?_, ?_⟩
  · have h15 : ¬ (15 = x) := by omega
    simp [setAt, h15]
  · intro hy15
    have h1 : ¬ (x = 15) := by omega
    simp only [setAt, if_true, h1, hy15, if_false]
    omega

/-- Instance of C4 (amended) on `8125` with `V1 = 3`, `V2 = 5` (a borrow). -/
theorem SUB_8xy5_witness :
    ∃ c1, Cycle subEx 0 = some c1 ∧
      (c1.v 15 = if subEx.v 1 > subEx.v 2 then 1 else 0) ∧
      ((2 : Nat) ≠ 15 → (c1.v 1 : Int) = ((subEx.v 1 : Int) - (subEx.v 2 : Int)) % 256) :=
  SUB_8xy5 subEx 0 1 2 (by decide) (by decide) (by decide) (by decide) (by decide)

/-- C4 as stated fails when VF is an operand.  On `80F5` with `V0 = 5`,
`VF = 3` the cycle leaves `V0 = 4`, not `(5-3) mod 256 = 2`; on `8F15` with
`VF = 5`, `V1 = 3` it leaves `VF = 254`, neither the difference 2 nor the
flag 1. -/
theorem SUB_8xy5_counterexample :
    (fetch subCexY = some 0x80F5 ∧ subCexY.v 0 = 5 ∧ subCexY.v 15 = 3 ∧
      (Cycle subCexY 0).map (fun c => c.v 0) = some 4 ∧
      ¬ ((Cycle subCexY 0).map (fun c => (c.v 0 : Int))
          = some (((subCexY.v 0 : Int) - (subCexY.v 15 : Int)) % 256))) ∧
    (fetch subCexX = some 0x8F15 ∧ subCexX.v 15 = 5 ∧ subCexX.v 1 = 3 ∧
      (Cycle subCexX 0).map (fun c => c.v 15) = some 254 ∧
      ¬ ((Cycle subCexX 0).map (fun c => c.v 15)
          = some (if subCexX.v 15 > subCexX.v 1 then 1 else 0))) := by
  decide

/-! ## Dxyn -/

theorem exists_lt_succ_iff (P : Nat → Prop) (k : Nat) :
    (∃ col, col < k + 1 ∧ P col) ↔ (∃ col, col < k ∧ P col) ∨ P k := by
  constructor
  · rintro ⟨col, hcol, hP⟩
    by_cases h : col = k
    · subst h; exact Or.inr hP
    · exact Or.inl ⟨col, by omega, hP⟩
  · rintro (⟨col, hcol, hP⟩ | hP)
    · exact ⟨col, by omega, hP⟩
    · exact ⟨k, by omega, hP⟩

/-- The inner-loop body on a column whose sprite bit is clear. -/
theorem drawBit_clear (vx vy r p k : Nat) (c : Chip8) (hk : k < 8)
    (hb : ¬ p.testBit (7 - k) = true) : drawBit vx vy r p c k = some c := by
  have : ¬ (p &&& (0x80 >>> k) ≠ 0) := fun h => hb ((spriteBit p k hk).1 h)
  unfold drawBit
  rw [if_neg this]

/-- The inner-loop body on a column whose sprite bit is set. -/
theorem drawBit_set (vx vy r p k : Nat) (c : Chip8) (hk : k < 8)
    (hb : p.testBit (7 - k) = true) :
    drawBit vx vy r p c k = some { c with
      v := if c.display ((vx + k) % 64) ((vy + r) % 32) = true then setAt c.v 15 1 else c.v
      display := setAt c.display ((vx + k) % 64)
        (setAt (c.display ((vx + k) % 64)) ((vy + r) % 32)
          (!c.display ((vx + k) % 64) ((vy + r) % 32))) } := by
  have h1 : p &&& (0x80 >>> k) ≠ 0 := (spriteBit p k hk).2 hb
  have hx : (vx + k) % 65536 % displayWidth = (vx + k) % 64 := by
    unfold displayWidth; omega
  have hy : (vy + r) % 65536 % displayHeight = (vy + r) % 32 := by
    unfold displayHeight; omega
  have hxb : (vx + k) % 64 < displayWidth := by unfold displayWidth; omega
  have hyb : (vy + r) % 32 < displayHeight := by unfold displayHeight; omega
  unfold drawBit
  rw [if_pos h1]
  simp only [hx, hy, index2, assign2, hxb, hyb, and_self, if_true, Option.bind_eq_bind,
    Option.some_bind, Option.pure_def, assign, registerCount]
  cases hd : c.display ((vx + k) % 64) ((vy + r) % 32) <;> simp

/-- Invariant of the inner (column) loop of `Dxyn` for sprite row `r` with
byte `p`, started in state `d`: after `k` columns only `v[0xF]` and the cells
hit in this row differ from `d`. -/
theorem drawCols_spec (vx vy r p : Nat) (d : Chip8) :
    ∀ k, k ≤ 8 → ∃ V D,
      (List.range k).foldlM (drawBit vx vy r p) d = some { d with v := V, display := D } ∧
      (∀ px py, D px py = xor (d.display px py)
        (decide (∃ col : Nat, col < k ∧ (p.testBit (7 - col) = true ∧
          (vx + col) % 64 = px ∧ (vy + r) % 32 = py)))) ∧
      (∀ j, j ≠ 15 → V j = d.v j) ∧
      (V 15 = if (∃ col : Nat, col < k ∧ (p.testBit (7 - col) = true ∧
          d.display ((vx + col) % 64) ((vy + r) % 32) = true)) then 1 else d.v 15) := by
  intro k
  induction k with
  | zero =>
    intro _
    refine ⟨d.v, d.display, rfl, ?_, fun _ _ => rfl, ?_⟩
    · intro px py; simp
    · simp
  | succ k ih =>
    intro hk
    have hk8 : k < 8 := by omega
    obtain ⟨V, D, hrun, hD, hV, hF⟩ := ih (by omega)
    rw [foldlM_range_succ, hrun, Option.some_bind]
    by_cases hb : p.testBit (7 - k) = true
    · -- the bit is set: the cell is toggled
      rw [drawBit_set vx vy r p k _ hk8 hb]
      -- the cell of column k has not been touched by the earlier columns
      have hnone : ¬ ∃ col : Nat, col < k ∧ (p.testBit (7 - col) = true ∧
          (vx + col) % 64 = (vx + k) % 64 ∧ (vy + r) % 32 = (vy + r) % 32) := by
        rintro ⟨col, hcol, _, hx, _⟩
        omega
      have hfresh : D ((vx + k) % 64) ((vy + r) % 32)
          = d.display ((vx + k) % 64) ((vy + r) % 32) := by
        rw [hD, decide_eq_false hnone]
        simp
      refine ⟨_, _, rfl, ?_, ?_, ?_⟩
      · intro px py
        show setAt D ((vx + k) % 64) (setAt (D ((vx + k) % 64)) ((vy + r) % 32)
          (!D ((vx + k) % 64) ((vy + r) % 32))) px py = _
        by_cases hpx : px = (vx + k) % 64
        · by_cases hpy : py = (vy + r) % 32
          · subst hpx; subst hpy
            rw [setAt_same, setAt_same, hfresh]
            have : ∃ col : Nat, col < k + 1 ∧ (p.testBit (7 - col) = true ∧
                (vx + col) % 64 = (vx + k) % 64 ∧ (vy + r) % 32 = (vy + r) % 32) :=
              ⟨k, by omega, hb, rfl, rfl⟩
            rw [decide_eq_true this]
            simp
          · subst hpx
            rw [setAt_same, setAt_other _ _ _ _ hpy, hD]
            congr 1
            apply decide_eq_decide.mpr
            rw [exists_lt_succ_iff]
            constructor
            · exact Or.inl
            · rintro (h | ⟨_, _, h⟩)
              · exact h
              · exact absurd h.symm hpy
        · rw [setAt_other _ _ _ _ hpx, hD]
          congr 1
          apply decide_eq_decide.mpr
          rw [exists_lt_succ_iff]
          constructor
          · exact Or.inl
          · rintro (h | ⟨_, h, _⟩)
            · exact h
            · exact absurd h.symm hpx
      · intro j hj
        show (if D ((vx + k) % 64) ((vy + r) % 32) = true then setAt V 15 1 else V) j = d.v j
        split
        · rw [setAt_other _ _ _ _ hj, hV j hj]
        · exact hV j hj
      · show (if D ((vx + k) % 64) ((vy + r) % 32) = true then setAt V 15 1 else V) 15 = _
        rw [hfresh]
        by_cases hon : d.display ((vx + k) % 64) ((vy + r) % 32) = true
        · have : ∃ col : Nat, col < k + 1 ∧ (p.testBit (7 - col) = true ∧
              d.display ((vx + col) % 64) ((vy + r) % 32) = true) := ⟨k, by omega, hb, hon⟩
          rw [if_pos hon, if_pos this, setAt_same]
        · rw [if_neg hon, hF]
          apply if_congr _ rfl rfl
          rw [exists_lt_succ_iff]
          constructor
          · exact Or.inl
          · rintro (h | ⟨_, h⟩)
            · exact h
            · exact absurd h hon
    · -- the bit is clear: nothing changes
      rw [drawBit_clear vx vy r p k _ hk8 hb]
      refine ⟨V, D, rfl, ?_, hV, ?_⟩
      · intro px py
        rw [hD px py]
        congr 1
        apply decide_eq_decide.mpr
        rw [exists_lt_succ_iff]
        constructor
        · exact Or.inl
        · rintro (h | ⟨h, _⟩)
          · exact h
          · exact absurd h hb
      · rw [hF]
        apply if_congr _ rfl rfl
        rw [exists_lt_succ_iff]
        constructor
        · exact Or.inl
        · rintro (h | ⟨h, _⟩)
          · exact h
          · exact absurd h hb

/-- Invariant of the outer (row) loop of `Dxyn` started in state `d`: after `r`
rows the framebuffer is the old one with the cells hit by rows `0 .. r-1`
toggled, `v[0xF]` is 1 if one of those cells was lit in `d` and keeps its value
otherwise, and nothing else has changed. -/
theorem drawRows_spec (vx vy n : Nat) (d : Chip8) (hn : n ≤ 32) (hmem : d.i + n ≤ 4096) :
    ∀ r : Nat, r ≤ n → ∃ (V : Nat → Nat) (D : Nat → Nat → Bool),
      (List.range r).foldlM (drawRow vx vy) d = some { d with v := V, display := D } ∧
      (∀ px py : Nat, D px py = xor (d.display px py)
        (decide (∃ row : Nat, row < r ∧ ∃ col : Nat, col < 8 ∧
          ((d.memory (d.i + row)).testBit (7 - col) = true ∧
            (vx + col) % 64 = px ∧ (vy + row) % 32 = py)))) ∧
      (∀ j, j ≠ 15 → V j = d.v j) ∧
      (V 15 = if (∃ row : Nat, row < r ∧ ∃ col : Nat, col < 8 ∧
          ((d.memory (d.i + row)).testBit (7 - col) = true ∧
            d.display ((vx + col) % 64) ((vy + row) % 32) = true)) then 1 else d.v 15) := by
  intro r
  induction r with
  | zero =>
    intro _
    refine ⟨d.v, d.display, rfl, ?_, fun _ _ => rfl, ?_⟩
    · intro px py; simp
    · simp
  | succ r ih =>
    intro hr
    obtain ⟨V, D, hrun, hD, hV, hF⟩ := ih (by omega)
    rw [foldlM_range_succ, hrun, Option.some_bind]
    have haddr : (d.i + r) % 65536 = d.i + r := by omega
    have hin : d.i + r < memorySize := by unfold memorySize; omega
    obtain ⟨V1, D1, hcols, hD1, hV1, hF1⟩ :=
      drawCols_spec vx vy r (d.memory (d.i + r)) { d with v := V, display := D } 8 (Nat.le_refl 8)
    have hrow : drawRow vx vy { d with v := V, display := D } r
        = some { d with v := V1, display := D1 } := by
      unfold drawRow
      simp only [haddr, index, hin, if_true, Option.bind_eq_bind, Option.some_bind]
      exact hcols
    rw [hrow]
    -- the cells of row r have not been touched by the earlier rows
    have hfresh : ∀ col, D ((vx + col) % 64) ((vy + r) % 32)
        = d.display ((vx + col) % 64) ((vy + r) % 32) := by
      intro col
      have hnone : ¬ ∃ row : Nat, row < r ∧ ∃ c2 : Nat, c2 < 8 ∧
          ((d.memory (d.i + row)).testBit (7 - c2) = true ∧
            (vx + c2) % 64 = (vx + col) % 64 ∧ (vy + row) % 32 = (vy + r) % 32) := by
        rintro ⟨row, hrow, _, _, _, _, hy⟩
        omega
      rw [hD, decide_eq_false hnone]
      simp
    refine ⟨V1, D1, rfl, ?_, ?_, ?_⟩
    · intro px py
      rw [hD1 px py]
      show xor (D px py) _ = _
      rw [hD px py]
      by_cases hB : ∃ col : Nat, col < 8 ∧ ((d.memory (d.i + r)).testBit (7 - col) = true ∧
          (vx + col) % 64 = px ∧ (vy + r) % 32 = py)
      · have hA : ¬ ∃ row : Nat, row < r ∧ ∃ col : Nat, col < 8 ∧
            ((d.memory (d.i + row)).testBit (7 - col) = true ∧
              (vx + col) % 64 = px ∧ (vy + row) % 32 = py) := by
          rintro ⟨row, hrow, _, _, _, _, hy⟩
          obtain ⟨_, _, _, _, hy2⟩ := hB
          omega
        have hAB : ∃ row : Nat, row < r + 1 ∧ ∃ col : Nat, col < 8 ∧
            ((d.memory (d.i + row)).testBit (7 - col) = true ∧
              (vx + col) % 64 = px ∧ (vy + row) % 32 = py) := ⟨r, by omega, hB⟩
        rw [decide_eq_true hB, decide_eq_false hA, decide_eq_true hAB]
        simp
      · rw [decide_eq_false hB]
        have : ∀ b : Bool, xor b false = b := by decide
        rw [this]
        congr 1
        apply decide_eq_decide.mpr
        rw [exists_lt_succ_iff]
        constructor
        · exact Or.inl
        · rintro (h | h)
          · exact h
          · exact absurd h hB
    · intro j hj
      rw [hV1 j hj]
      exact hV j hj
    · rw [hF1]
      show (if _ then 1 else V 15) = _
      rw [hF]
      by_cases hB : ∃ col : Nat, col < 8 ∧ ((d.memory (d.i + r)).testBit (7 - col) = true ∧
          D ((vx + col) % 64) ((vy + r) % 32) = true)
      · have hAB : ∃ row : Nat, row < r + 1 ∧ ∃ col : Nat, col < 8 ∧
            ((d.memory (d.i + row)).testBit (7 - col) = true ∧
              d.display ((vx + col) % 64) ((vy + row) % 32) = true) := by
          obtain ⟨col, hcol, hbit, hon⟩ := hB
          exact ⟨r, by omega, col, hcol, hbit, by rw [← hfresh col]; exact hon⟩
        rw [if_pos hB, if_pos hAB]
      · rw [if_neg hB]
        apply if_congr _ rfl rfl
        rw [exists_lt_succ_iff]
        constructor
        · exact Or.inl
        · rintro (h | h)
          · exact h
          · exfalso
            apply hB
            obtain ⟨col, hcol, hbit, hon⟩ := h
            exact ⟨col, hcol, hbit, by rw [hfresh col]; exact hon⟩

/-- One cycle on `Dxyn` with `I + n ≤ 4096`: the complete effect on the state. -/
theorem Cycle_DRW (c : Chip8) (rnd x y n : Nat) (hx : x < 16) (hy : y < 16) (hn : n < 16)
    (hf : fetch c = some (0xD000 + x * 256 + y * 16 + n)) (hI : c.i + n ≤ 4096) :
    ∃ c1, Cycle c rnd = some c1 ∧
      (∀ px py : Nat, c1.display px py = xor (c.display px py)
        (decide (∃ row : Nat, row < n ∧ ∃ col : Nat, col < 8 ∧
          ((c.memory (c.i + row)).testBit (7 - col) = true ∧
            (c.v x + col) % 64 = px ∧ (c.v y + row) % 32 = py)))) ∧
      (c1.v 15 = if (∃ row : Nat, row < n ∧ ∃ col : Nat, col < 8 ∧
          ((c.memory (c.i + row)).testBit (7 - col) = true ∧
            c.display ((c.v x + col) % 64) ((c.v y + row) % 32) = true)) then 1 else 0) ∧
      (∀ j, j ≠ 15 → c1.v j = c.v j) ∧
      c1 = { c with pc := (c.pc + 2) % 65536, v := c1.v, display := c1.display, draw := true } := by
  have hF : (0xD000 + x * 256 + y * 16 + n) &&& 0xF000 = 0xD000 := by
    rw [and_F000]; omega
  have hN : (0xD000 + x * 256 + y * 16 + n) &&& 0x000F = n := by
    rw [and_000F]; omega
  have hX : regX (0xD000 + x * 256 + y * 16 + n) = x := by
    rw [regX_eq]; omega
  have hY : regY (0xD000 + x * 256 + y * 16 + n) = y := by
    rw [regY_eq]; omega
  obtain ⟨V, D, hrun, hD, hV, hVF⟩ :=
    drawRows_spec (c.v x) (c.v y) n
      { c with pc := (c.pc + 2) % 65536, v := setAt c.v 15 0 } (by omega) hI n (Nat.le_refl n)
  have hrun2 : (List.range n).foldlM (drawRow (c.v x) (c.v y))
      { c with pc := (c.pc + 2) % 65536, v := setAt c.v 15 0 }
      = some { c with pc := (c.pc + 2) % 65536, v := V, display := D } := hrun
  rw [Cycle_of_fetch c _ rnd hf]
  simp only [execute, hF, opDRW, hN, hX, hY]
  simp only [index, assign, registerCount, hx, hy]
  simp only [Nat.reduceEqDiff, if_false, if_true, Nat.reduceLT, Option.some_bind,
    Option.bind_eq_bind, Option.pure_def]
  rw [hrun2]
  refine ⟨_, rfl, hD, ?_, ?_, rfl⟩
  · exact hVF
  · intro j hj
    show V j = c.v j
    rw [hV j hj]
    exact setAt_other _ _ _ _ hj

/-- C5. One cycle on `Dxyn` with `I + n ≤ 4096`: every framebuffer cell
`(px, py)` equals its old value XOR "some row < n and col < 8 has bit `7 - col`
of `memory[I+row]` set and `((Vx+col) mod 64, (Vy+row) mod 32) = (px, py)`",
with `Vx`, `Vy` the register values before the cycle; cells not addressed this
way are unchanged, memory is unchanged and the redraw flag is set. -/
theorem DRW_framebuffer (c : Chip8) (rnd x y n : Nat) (hx : x < 16) (hy : y < 16)
    (hn : n < 16) (hf : fetch c = some (0xD000 + x * 256 + y * 16 + n))
    (hI : c.i + n ≤ 4096) :
    ∃ c1, Cycle c rnd = some c1 ∧
      (∀ px py : Nat, c1.display px py = xor (c.display px py)
        (decide (∃ row : Nat, row < n ∧ ∃ col : Nat, col < 8 ∧
          ((c.memory (c.i + row)).testBit (7 - col) = true ∧
            (c.v x + col) % 64 = px ∧ (c.v y + row) % 32 = py)))) ∧
      (∀ px py : Nat,
        (¬ ∃ row : Nat, row < n ∧ ∃ col : Nat, col < 8 ∧
          ((c.memory (c.i + row)).testBit (7 - col) = true ∧
            (c.v x + col) % 64 = px ∧ (c.v y + row) % 32 = py)) →
        c1.display px py = c.display px py) ∧
      c1.memory = c.memory ∧ c1.draw = true := by
  obtain ⟨c1, hc, hD, _, _, hrest⟩ := Cycle_DRW c rnd x y n hx hy hn hf hI
  refine ⟨c1, hc, hD, ?_, ?_, ?_⟩
  · intro px py hno
    rw [hD px py, decide_eq_false hno]
    simp
  · rw [hrest]
  · rw [hrest]

/-- Instance of C5 on `D125`: the glyph of 0 drawn across both screen edges. -/
theorem DRW_framebuffer_witness :
    ∃ c1, Cycle drawEx 0 = some c1 ∧
      (∀ px py : Nat, c1.display px py = xor (drawEx.display px py)
        (decide (∃ row : Nat, row < 5 ∧ ∃ col : Nat, col < 8 ∧
          ((drawEx.memory (drawEx.i + row)).testBit (7 - col) = true ∧
            (drawEx.v 1 + col) % 64 = px ∧ (drawEx.v 2 + row) % 32 = py)))) ∧
      (∀ px py : Nat,
        (¬ ∃ row : Nat, row < 5 ∧ ∃ col : Nat, col < 8 ∧
          ((drawEx.memory (drawEx.i + row)).testBit (7 - col) = true ∧
            (drawEx.v 1 + col) % 64 = px ∧ (drawEx.v 2 + row) % 32 = py)) →
        c1.display px py = drawEx.display px py) ∧
      c1.memory = drawEx.memory ∧ c1.draw = true :=
  DRW_framebuffer drawEx 0 1 2 5 (by decide) (by decide) (by decide) (by decide) (by decide)

/-- C6. One cycle on `Dxyn` with `I + n ≤ 4096` leaves `VF = 1` if some cell
toggled by the sprite was lit before the instruction and `VF = 0` otherwise,
whatever VF held before; on an all-clear framebuffer it leaves `VF = 0`. -/
theorem DRW_collision (c : Chip8) (rnd x y n : Nat) (hx : x < 16) (hy : y < 16)
    (hn : n < 16) (hf : fetch c = some (0xD000 + x * 256 + y * 16 + n))
    (hI : c.i + n ≤ 4096) :
    ∃ c1, Cycle c rnd = some c1 ∧
      (c1.v 15 = if (∃ row : Nat, row < n ∧ ∃ col : Nat, col < 8 ∧
          ((c.memory (c.i + row)).testBit (7 - col) = true ∧
            c.display ((c.v x + col) % 64) ((c.v y + row) % 32) = true)) then 1 else 0) ∧
      ((∀ px py : Nat, px < 64 → py < 32 → c.display px py = false) → c1.v 15 = 0) := by
  obtain ⟨c1, hc, _, hVF, _, _⟩ := Cycle_DRW c rnd x y n hx hy hn hf hI
  refine ⟨c1, hc, hVF, ?_⟩
  intro hclear
  rw [hVF]
  apply if_neg
  rintro ⟨row, _, col, _, _, hon⟩
  rw [hclear _ _ (Nat.mod_lt _ (by decide)) (Nat.mod_lt _ (by decide))] at hon
  exact Bool.noConfusion hon

/-- Instance of C6 on `D125` with one of the sprite cells already lit. -/
theorem DRW_collision_witness :
    ∃ c1, Cycle drawEx 0 = some c1 ∧
      (c1.v 15 = if (∃ row : Nat, row < 5 ∧ ∃ col : Nat, col < 8 ∧
          ((drawEx.memory (drawEx.i + row)).testBit (7 - col) = true ∧
            drawEx.display ((drawEx.v 1 + col) % 64) ((drawEx.v 2 + row) % 32) = true))
        then 1 else 0) ∧
      ((∀ px py : Nat, px < 64 → py < 32 → drawEx.display px py = false) → c1.v 15 = 0) :=
  DRW_collision drawEx 0 1 2 5 (by decide) (by decide) (by decide) (by decide) (by decide)

/-- C7. On an all-clear framebuffer with `memory[I] = 0xFF` and `I ≤ 4095`, two
successive cycles on `Dxy1` that draw at the same location (the first leaves
`Vx` and `Vy` as they were): after the first, exactly the 8 cells
`((Vx+col) mod 64, Vy mod 32)`, `col < 8`, are lit and `VF = 0`; after the
second the framebuffer is all clear again and `VF = 1`. -/
theorem DRW_twice (c : Chip8) (rnd1 rnd2 x y : Nat) (hx : x < 16) (hy : y < 16)
    (hclear : ∀ px py : Nat, px < 64 → py < 32 → c.display px py = false)
    (hsprite : c.memory c.i = 0xFF) (hI : c.i ≤ 4095)
    (hf1 : fetch c = some (0xD000 + x * 256 + y * 16 + 1))
    (hf2 : ∀ c1, Cycle c rnd1 = some c1 → fetch c1 = some (0xD000 + x * 256 + y * 16 + 1))
    (hsame : ∀ c1, Cycle c rnd1 = some c1 → c1.v x = c.v x ∧ c1.v y = c.v y ∧ c1.i = c.i) :
    ∃ c1 c2, Cycle c rnd1 = some c1 ∧ Cycle c1 rnd2 = some c2 ∧
      (∀ px py : Nat, px < 64 → py < 32 →
        (c1.display px py = true ↔
          ∃ col : Nat, col < 8 ∧ px = (c.v x + col) % 64 ∧ py = c.v y % 32)) ∧
      c1.v 15 = 0 ∧
      (∀ px py : Nat, px < 64 → py < 32 → c2.display px py = false) ∧
      c2.v 15 = 1 := by
  have hbits : ∀ col : Nat, col < 8 → (0xFF : Nat).testBit (7 - col) = true := by
    intro col hcol
    interval_cases col <;> decide
  obtain ⟨c1, hc1, hD1, hV1, _, hrest1⟩ :=
    Cycle_DRW c rnd1 x y 1 hx hy (by decide) hf1 (by omega)
  obtain ⟨hvx, hvy, hi1⟩ := hsame c1 hc1
  have hmem1 : c1.memory = c.memory := by rw [hrest1]
  obtain ⟨c2, hc2, hD2, hV2, _, _⟩ :=
    Cycle_DRW c1 rnd2 x y 1 hx hy (by decide) (hf2 c1 hc1) (by rw [hi1]; omega)
  -- the cells hit by the one-row sprite
  have hhit : ∀ (m : Nat → Nat) (a vx vy px py : Nat), m a = 0xFF →
      ((∃ row : Nat, row < 1 ∧ ∃ col : Nat, col < 8 ∧
          ((m (a + row)).testBit (7 - col) = true ∧
            (vx + col) % 64 = px ∧ (vy + row) % 32 = py)) ↔
        ∃ col : Nat, col < 8 ∧ px = (vx + col) % 64 ∧ py = vy % 32) := by
    intro m a vx vy px py hm
    constructor
    · rintro ⟨row, hrow, col, hcol, _, hpx, hpy⟩
      have : row = 0 := by omega
      subst this
      exact ⟨col, hcol, hpx.symm, hpy.symm⟩
    · rintro ⟨col, hcol, hpx, hpy⟩
      refine ⟨0, by omega, col, hcol, ?_, hpx.symm, hpy.symm⟩
      rw [Nat.add_zero, hm]
      exact hbits col hcol
  have hlit1 : ∀ px py : Nat, px < 64 → py < 32 →
      (c1.display px py = true ↔
        ∃ col : Nat, col < 8 ∧ px = (c.v x + col) % 64 ∧ py = c.v y % 32) := by
    intro px py hpx hpy
    rw [hD1 px py, hclear px py hpx hpy, ← hhit c.memory c.i (c.v x) (c.v y) px py hsprite]
    simp
  refine ⟨c1, c2, hc1, hc2, hlit1, ?_, ?_, ?_⟩
  · rw [hV1]
    apply if_neg
    rintro ⟨row, _, col, _, _, hon⟩
    rw [hclear _ _ (Nat.mod_lt _ (by decide)) (Nat.mod_lt _ (by decide))] at hon
    exact Bool.noConfusion hon
  · intro px py hpx hpy
    rw [hD2 px py, hmem1, hi1, hvx, hvy]
    by_cases hin : ∃ col : Nat, col < 8 ∧ px = (c.v x + col) % 64 ∧ py = c.v y % 32
    · rw [(hlit1 px py hpx hpy).2 hin,
        decide_eq_true ((hhit c.memory c.i (c.v x) (c.v y) px py hsprite).2 hin)]
      rfl
    · have hoff : c1.display px py = false := by
        cases h : c1.display px py
        · rfl
        · exact absurd ((hlit1 px py hpx hpy).1 h) hin
      rw [hoff, decide_eq_false
        (fun h => hin ((hhit c.memory c.i (c.v x) (c.v y) px py hsprite).1 h))]
      rfl
  · rw [hV2]
    apply if_pos
    refine ⟨0, by omega, 0, by omega, ?_, ?_⟩
    · rw [hmem1, hi1, Nat.add_zero, hsprite]
      decide
    · rw [hvx, hvy]
      exact (hlit1 _ _ (Nat.mod_lt _ (by decide)) (Nat.mod_lt _ (by decide))).2
        ⟨0, by omega, rfl, by omega⟩

/-- Instance of C7: `D011` twice at `(62, 5)`, wrapping around the right edge. -/
theorem DRW_twice_witness :
    ∃ c1 c2, Cycle drawTwiceEx 0 = some c1 ∧ Cycle c1 0 = some c2 ∧
      (∀ px py : Nat, px < 64 → py < 32 →
        (c1.display px py = true ↔
          ∃ col : Nat, col < 8 ∧ px = (drawTwiceEx.v 0 + col) % 64 ∧ py = drawTwiceEx.v 1 % 32)) ∧
      c1.v 15 = 0 ∧
      (∀ px py : Nat, px < 64 → py < 32 → c2.display px py = false) ∧
      c2.v 15 = 1 :=
  DRW_twice drawTwiceEx 0 0 0 1 (by decide) (by decide)
    (fun _ _ _ _ => rfl) (by decide) (by decide) (by decide)
    (fun c1 h => by
      have e : (Cycle drawTwiceEx 0).bind fetch = some (0xD000 + 0 * 256 + 1 * 16 + 1) := by decide
      rw [h] at e
      exact e)
    (fun c1 h => by
      have e : (Cycle drawTwiceEx 0).map (fun s => (s.v 0, s.v 1, s.i))
          = some (drawTwiceEx.v 0, drawTwiceEx.v 1, drawTwiceEx.i) := by decide
      rw [h] at e
      simp only [Option.map_some', Option.some.injEq, Prod.mk.injEq] at e
      exact e)

/-! ## Fx55 and Fx65 -/

/-- Invariant of the store loop of `Fx55`. -/
theorem storeRegs_loop (c : Chip8) (x : Nat) (hx : x < 16) (haddr : c.i + x ≤ 4095) :
    ∀ k : Nat, k ≤ x + 1 → ∃ m : Nat → Nat,
      (List.range k).foldlM
        (fun m k => do
          let vk ← index registerCount c.v k
          assign memorySize m ((c.i + k) % 65536) vk) c.memory = some m ∧
      ∀ j : Nat, m j = if c.i ≤ j ∧ j < c.i + k then c.v (j - c.i) else c.memory j := by
  intro k
  induction k with
  | zero =>
    intro _
    refine ⟨c.memory, rfl, ?_⟩
    intro j
    have : ¬ (c.i ≤ j ∧ j < c.i + 0) := by omega
    rw [if_neg this]
  | succ k ih =>
    intro hk
    obtain ⟨m, hm, hcell⟩ := ih (by omega)
    refine ⟨setAt m (c.i + k) (c.v k), ?_, ?_⟩
    · rw [foldlM_range_succ, hm, Option.some_bind]
      have h1 : k < registerCount := by unfold registerCount; omega
      have h2 : (c.i + k) % 65536 = c.i + k := by omega
      have h3 : c.i + k < memorySize := by unfold memorySize; omega
      simp only [index, assign, h1, h2, h3, if_true, Option.bind_eq_bind, Option.some_bind]
    · intro j
      by_cases hj : j = c.i + k
      · subst hj
        have : c.i ≤ c.i + k ∧ c.i + k < c.i + (k + 1) := by omega
        rw [setAt_same, if_pos this, Nat.add_sub_cancel_left]
      · rw [setAt_other _ _ _ _ hj, hcell j]
        by_cases h1 : c.i ≤ j ∧ j < c.i + k
        · have h2 : c.i ≤ j ∧ j < c.i + (k + 1) := by omega
          rw [if_pos h1, if_pos h2]
        · have h2 : ¬ (c.i ≤ j ∧ j < c.i + (k + 1)) := by omega
          rw [if_neg h1, if_neg h2]

/-- Invariant of the load loop of `Fx65`. -/
theorem loadRegs_loop (c : Chip8) (x : Nat) (hx : x < 16) (haddr : c.i + x ≤ 4095) :
    ∀ k : Nat, k ≤ x + 1 → ∃ V : Nat → Nat,
      (List.range k).foldlM
        (fun v k => do
          let b ← index memorySize c.memory ((c.i + k) % 65536)
          assign registerCount v k b) c.v = some V ∧
      ∀ j : Nat, V j = if j < k then c.memory (c.i + j) else c.v j := by
  intro k
  induction k with
  | zero =>
    intro _
    refine ⟨c.v, rfl, ?_⟩
    intro j
    rw [if_neg (Nat.not_lt_zero j)]
  | succ k ih =>
    intro hk
    obtain ⟨V, hV, hcell⟩ := ih (by omega)
    refine ⟨setAt V k (c.memory (c.i + k)), ?_, ?_⟩
    · rw [foldlM_range_succ, hV, Option.some_bind]
      have h1 : k < registerCount := by unfold registerCount; omega
      have h2 : (c.i + k) % 65536 = c.i + k := by omega
      have h3 : c.i + k < memorySize := by unfold memorySize; omega
      simp only [index, assign, h1, h2, h3, if_true, Option.bind_eq_bind, Option.some_bind]
    · intro j
      by_cases hj : j = k
      · subst hj
        rw [setAt_same, if_pos (Nat.lt_succ_self j)]
      · rw [setAt_other _ _ _ _ hj, hcell j]
        by_cases h1 : j < k
        · rw [if_pos h1, if_pos (by omega)]
        · rw [if_neg h1, if_neg (by omega)]

/-- One cycle on `Fx55` with `I + x ≤ 4095`. -/
theorem Cycle_Fx55 (c : Chip8) (rnd x : Nat) (hx : x < 16) (haddr : c.i + x ≤ 4095)
    (hf : fetch c = some (0xF055 + x * 256)) :
    ∃ m : Nat → Nat,
      Cycle c rnd = some { c with pc := (c.pc + 2) % 65536, memory := m, i := c.i + x + 1 } ∧
      ∀ j : Nat, m j = if c.i ≤ j ∧ j < c.i + (x + 1) then c.v (j - c.i) else c.memory j := by
  have hF : (0xF055 + x * 256) &&& 0xF000 = 0xF000 := by rw [and_F000]; omega
  have hL : (0xF055 + x * 256) &&& 0x00FF = 0x55 := by rw [and_00FF]; omega
  have hX : regX (0xF055 + x * 256) = x := by rw [regX_eq]; omega
  obtain ⟨m, hm, hcell⟩ :=
    storeRegs_loop { c with pc := (c.pc + 2) % 65536 } x hx haddr (x + 1) (Nat.le_refl _)
  have hi : (c.i + (x + 1) % 65536) % 65536 = c.i + x + 1 := by omega
  have hm1 : storeRegs { c with pc := (c.pc + 2) % 65536 } x = some m := hm
  refine ⟨m, ?_, hcell⟩
  rw [Cycle_of_fetch c _ rnd hf]
  simp only [execute, hF, opF, hL, hX]
  simp only [Nat.reduceEqDiff, if_false, if_true, hm1, hi, Option.some_bind,
    Option.bind_eq_bind, Option.pure_def]

/-- One cycle on `Fx65` with `I + x ≤ 4095`. -/
theorem Cycle_Fx65 (c : Chip8) (rnd x : Nat) (hx : x < 16) (haddr : c.i + x ≤ 4095)
    (hf : fetch c = some (0xF065 + x * 256)) :
    ∃ V : Nat → Nat,
      Cycle c rnd = some { c with pc := (c.pc + 2) % 65536, v := V, i := c.i + x + 1 } ∧
      ∀ j : Nat, V j = if j < x + 1 then c.memory (c.i + j) else c.v j := by
  have hF : (0xF065 + x * 256) &&& 0xF000 = 0xF000 := by rw [and_F000]; omega
  have hL : (0xF065 + x * 256) &&& 0x00FF = 0x65 := by rw [and_00FF]; omega
  have hX : regX (0xF065 + x * 256) = x := by rw [regX_eq]; omega
  obtain ⟨V, hV, hcell⟩ :=
    loadRegs_loop { c with pc := (c.pc + 2) % 65536 } x hx haddr (x + 1) (Nat.le_refl _)
  have hi : (c.i + (x + 1) % 65536) % 65536 = c.i + x + 1 := by omega
  have hV1 : loadRegs { c with pc := (c.pc + 2) % 65536 } x = some V := hV
  refine ⟨V, ?_, hcell⟩
  rw [Cycle_of_fetch c _ rnd hf]
  simp only [execute, hF, opF, hL, hX]
  simp only [Nat.reduceEqDiff, if_false, if_true, hV1, hi, Option.some_bind,
    Option.bind_eq_bind, Option.pure_def]

/-- C8. For `x` in 0..15 and `I = addr` with `addr + x ≤ 4095`, one cycle on
`Fx55` writes `V0..Vx` to `memory[addr .. addr+x]` and leaves `I = addr+x+1`;
when `I` is then set back to `addr` (registers replaced by arbitrary `regs`,
`pc` pointing at an `Fx65`), one cycle on `Fx65` leaves `V0..Vx` at their
original values, `V(x+1)..VF` untouched and `I = addr+x+1`. -/
theorem Fx55_Fx65_roundtrip (c : Chip8) (rnd1 rnd2 x pc2 : Nat) (regs : Nat → Nat)
    (hx : x < 16) (haddr : c.i + x ≤ 4095)
    (hf1 : fetch c = some (0xF055 + x * 256))
    (hf2 : ∀ c1, Cycle c rnd1 = some c1 →
      fetch { c1 with i := c.i, v := regs, pc := pc2 } = some (0xF065 + x * 256)) :
    ∃ c1 c3, Cycle c rnd1 = some c1 ∧
      (∀ j : Nat, j ≤ x → c1.memory (c.i + j) = c.v j) ∧
      c1.i = c.i + x + 1 ∧ c1.v = c.v ∧
      Cycle { c1 with i := c.i, v := regs, pc := pc2 } rnd2 = some c3 ∧
      (∀ j : Nat, j ≤ x → c3.v j = c.v j) ∧
      (∀ j : Nat, x < j → c3.v j = regs j) ∧
      c3.i = c.i + x + 1 := by
  obtain ⟨m, hc1, hm⟩ := Cycle_Fx55 c rnd1 x hx haddr hf1
  have hstored : ∀ j : Nat, j ≤ x → m (c.i + j) = c.v j := by
    intro j hj
    have : c.i ≤ c.i + j ∧ c.i + j < c.i + (x + 1) := by omega
    rw [hm, if_pos this, Nat.add_sub_cancel_left]
  obtain ⟨V, hc3, hV⟩ :=
    Cycle_Fx65 { c with pc := pc2, memory := m, i := c.i, v := regs } rnd2 x hx haddr
      (hf2 _ hc1)
  refine ⟨_, _, hc1, hstored, rfl, rfl, hc3, ?_, ?_, rfl⟩
  · intro j hj
    show V j = c.v j
    rw [hV, if_pos (by omega)]
    exact hstored j hj
  · intro j hj
    show V j = regs j
    rw [hV, if_neg (by omega)]

/-- Instance of C8 with `x = 2`: `F255`, registers overwritten with 9, then `F265`. -/
theorem Fx55_Fx65_roundtrip_witness :
    ∃ c1 c3, Cycle storeLoadEx 0 = some c1 ∧
      (∀ j : Nat, j ≤ 2 → c1.memory (storeLoadEx.i + j) = storeLoadEx.v j) ∧
      c1.i = storeLoadEx.i + 2 + 1 ∧ c1.v = storeLoadEx.v ∧
      Cycle { c1 with i := storeLoadEx.i, v := fun _ => 9, pc := 0x202 } 0 = some c3 ∧
      (∀ j : Nat, j ≤ 2 → c3.v j = storeLoadEx.v j) ∧
      (∀ j : Nat, 2 < j → c3.v j = (fun _ => 9) j) ∧
      c3.i = storeLoadEx.i + 2 + 1 :=
  Fx55_Fx65_roundtrip storeLoadEx 0 0 2 0x202 (fun _ => 9) (by decide) (by decide) (by decide)
    (fun c1 h => by
      have e : (Cycle storeLoadEx 0).bind
          (fun s => fetch { s with i := storeLoadEx.i, v := fun _ => 9, pc := 0x202 })
          = some (0xF065 + 2 * 256) := by decide
      rw [h] at e
      exact e)

/-! ## Fx33 -/

/-- C9. One cycle on `Fx33` with 8-bit `v = Vx` and `I ≤ 4093` stores the
hundreds, tens and ones digits of `v` in `memory[I]`, `memory[I+1]`,
`memory[I+2]`: each is at most 9, the first at most 2, and
`100*memory[I] + 10*memory[I+1] + memory[I+2] = v` (2, 3, 4 for `v = 234`);
no other memory cell, no register and not `I` changes. -/
theorem BCD_Fx33 (c : Chip8) (rnd x : Nat) (hx : x < 16) (hv : c.v x < 256)
    (hI : c.i ≤ 4093) (hf : fetch c = some (0xF033 + x * 256)) :
    ∃ c1, Cycle c rnd = some c1 ∧
      c1.memory c.i ≤ 2 ∧ c1.memory (c.i + 1) ≤ 9 ∧ c1.memory (c.i + 2) ≤ 9 ∧
      100 * c1.memory c.i + 10 * c1.memory (c.i + 1) + c1.memory (c.i + 2) = c.v x ∧
      (c.v x = 234 →
        c1.memory c.i = 2 ∧ c1.memory (c.i + 1) = 3 ∧ c1.memory (c.i + 2) = 4) ∧
      (∀ j : Nat, j ≠ c.i → j ≠ c.i + 1 → j ≠ c.i + 2 → c1.memory j = c.memory j) ∧
      c1.v = c.v ∧ c1.i = c.i ∧
      c1 = { c with pc := (c.pc + 2) % 65536, memory := c1.memory } := by
  have hF : (0xF033 + x * 256) &&& 0xF000 = 0xF000 := by rw [and_F000]; omega
  have hL : (0xF033 + x * 256) &&& 0x00FF = 0x33 := by rw [and_00FF]; omega
  have hX : regX (0xF033 + x * 256) = x := by rw [regX_eq]; omega
  have h0 : c.i < memorySize := by unfold memorySize; omega
  have h1 : (c.i + 1) % 65536 = c.i + 1 := by omega
  have h2 : (c.i + 2) % 65536 = c.i + 2 := by omega
  have h1m : c.i + 1 < memorySize := by unfold memorySize; omega
  have h2m : c.i + 2 < memorySize := by unfold memorySize; omega
  have hxr : x < registerCount := hx
  rw [Cycle_of_fetch c _ rnd hf]
  simp only [execute, hF, opF, hL, hX]
  simp only [Nat.reduceEqDiff, if_false, if_true, index, assign, hxr, h0, h1, h2, h1m, h2m,
    Option.some_bind, Option.bind_eq_bind, Option.pure_def]
  have e0 : setAt (setAt (setAt c.memory c.i (c.v x / 100)) (c.i + 1) (c.v x / 10 % 10))
      (c.i + 2) (c.v x % 10) c.i = c.v x / 100 := by
    rw [setAt_other _ _ _ _ (by omega), setAt_other _ _ _ _ (by omega), setAt_same]
  have e1 : setAt (setAt (setAt c.memory c.i (c.v x / 100)) (c.i + 1) (c.v x / 10 % 10))
      (c.i + 2) (c.v x % 10) (c.i + 1) = c.v x / 10 % 10 := by
    rw [setAt_other _ _ _ _ (by omega), setAt_same]
  have e2 : setAt (setAt (setAt c.memory c.i (c.v x / 100)) (c.i + 1) (c.v x / 10 % 10))
      (c.i + 2) (c.v x % 10) (c.i + 2) = c.v x % 10 := by
    rw [setAt_same]
  refine ⟨_, rfl, ?_, ?_, ?_, ?_, ?_, ?_, rfl, rfl, rfl⟩
  · show setAt _ _ _ c.i ≤ 2
    rw [e0]; omega
  · show setAt _ _ _ (c.i + 1) ≤ 9
    rw [e1]; omega
  · show setAt _ _ _ (c.i + 2) ≤ 9
    rw [e2]; omega
  · show 100 * setAt _ _ _ c.i + 10 * setAt _ _ _ (c.i + 1) + setAt _ _ _ (c.i + 2) = c.v x
    rw [e0, e1, e2]; omega
  · intro h234
    refine ⟨?_, ?_, ?_⟩
    · show setAt _ _ _ c.i = 2
      rw [e0]; omega
    · show setAt _ _ _ (c.i + 1) = 3
      rw [e1]; omega
    · show setAt _ _ _ (c.i + 2) = 4
      rw [e2]; omega
  · intro j hj0 hj1 hj2
    show setAt _ _ _ j = c.memory j
    rw [setAt_other _ _ _ _ hj2, setAt_other _ _ _ _ hj1, setAt_other _ _ _ _ hj0]

/-- Instance of C9 on `F333` with `V3 = 234`. -/
theorem BCD_Fx33_witness :
    ∃ c1, Cycle bcdEx 0 = some c1 ∧
      c1.memory bcdEx.i ≤ 2 ∧ c1.memory (bcdEx.i + 1) ≤ 9 ∧ c1.memory (bcdEx.i + 2) ≤ 9 ∧
      100 * c1.memory bcdEx.i + 10 * c1.memory (bcdEx.i + 1) + c1.memory (bcdEx.i + 2)
        = bcdEx.v 3 ∧
      (bcdEx.v 3 = 234 →
        c1.memory bcdEx.i = 2 ∧ c1.memory (bcdEx.i + 1) = 3 ∧ c1.memory (bcdEx.i + 2) = 4) ∧
      (∀ j : Nat, j ≠ bcdEx.i → j ≠ bcdEx.i + 1 → j ≠ bcdEx.i + 2 →
        c1.memory j = bcdEx.memory j) ∧
      c1.v = bcdEx.v ∧ c1.i = bcdEx.i ∧
      c1 = { bcdEx with pc := (bcdEx.pc + 2) % 65536, memory := c1.memory } :=
  BCD_Fx33 bcdEx 0 3 (by decide) (by decide) (by decide) (by decide)

/-! ## Fx0A -/

/-- The key scan finds nothing when no scanned key is pressed. -/
theorem scanKeys_none (keys : Nat → Bool) (l : List Nat)
    (h : ∀ k, k ∈ l → k < 16 ∧ keys k = false) : scanKeys keys l = some none := by
  induction l with
  | nil => rfl
  | cons k rest ih =>
    obtain ⟨hk, hoff⟩ := h k (List.mem_cons_self k rest)
    have hk1 : k < keyCount := hk
    unfold scanKeys
    simp only [index, hk1, if_true, hoff, Option.bind_eq_bind, Option.some_bind]
    exact ih (fun j hj => h j (List.mem_cons_of_mem k hj))

/-- C10. With all 16 keys released, one cycle on `Fx0A` returns the state it
started from (the `pc += 2` is undone and nothing else changes), hence so does
any number of cycles: the same instruction is fetched again each time. -/
theorem Fx0A_no_key (c : Chip8) (rnd x : Nat) (hx : x < 16)
    (hkeys : ∀ k : Nat, k < 16 → c.keys k = false)
    (hf : fetch c = some (0xF00A + x * 256)) :
    Cycle c rnd = some c ∧ ∀ rnds : List Nat, Cycles c rnds = some c := by
  have hF : (0xF00A + x * 256) &&& 0xF000 = 0xF000 := by rw [and_F000]; omega
  have hL : (0xF00A + x * 256) &&& 0x00FF = 0x0A := by rw [and_00FF]; omega
  have hpc := fetch_bound c _ hf
  have hback : ((c.pc + 2) % 65536 + 65536 - 2) % 65536 = c.pc := by omega
  have hscan : scanKeys c.keys (List.range keyCount) = some none := by
    apply scanKeys_none
    intro k hk
    have hk16 : k < 16 := List.mem_range.1 hk
    exact ⟨hk16, hkeys k hk16⟩
  have hone : ∀ r : Nat, Cycle c r = some c := by
    intro r
    rw [Cycle_of_fetch c _ r hf]
    simp only [execute, hF, opF, hL]
    simp only [Nat.reduceEqDiff, if_false, if_true, hscan, hback, Option.some_bind,
      Option.bind_eq_bind, Option.pure_def]
  refine ⟨hone rnd, ?_⟩
  intro rnds
  induction rnds with
  | nil => rfl
  | cons r rest ih =>
    unfold Cycles at ih ⊢
    rw [List.foldlM_cons, hone r]
    exact ih

/-- Instance of C10 on `F50A` with an idle keypad. -/
theorem Fx0A_no_key_witness :
    Cycle waitKeyEx 0 = some waitKeyEx ∧
      ∀ rnds : List Nat, Cycles waitKeyEx rnds = some waitKeyEx :=
  Fx0A_no_key waitKeyEx 0 5 (by decide) (fun _ _ => rfl) (by decide)

/-- The key scan from index `s` on stops at the first pressed key. -/
theorem scanKeys_first (keys : Nat → Bool) (k : Nat) (hk : k < 16) (hon : keys k = true)
    (hoff : ∀ j : Nat, j < k → keys j = false) :
    ∀ (n s : Nat), s ≤ k → k < s + n → scanKeys keys (List.range' s n) = some (some k) := by
  intro n
  induction n with
  | zero => intro s h1 h2; omega
  | succ n ih =>
    intro s h1 h2
    have hs : s < keyCount := by unfold keyCount; omega
    rw [List.range'_succ]
    unfold scanKeys
    simp only [index, hs, if_true, Option.bind_eq_bind, Option.some_bind]
    by_cases hsk : s = k
    · subst hsk
      simp only [hon, if_true, Option.pure_def]
    · have : keys s = false := hoff s (by omega)
      simp only [this, Bool.false_eq_true, if_false]
      exact ih (s + 1) (by omega) (by omega)

/-- C11. With at least one key pressed, one cycle on `Fx0A` sets `Vx` to the
smallest index `k` in 0..15 with `keypad[k]` true, advances PC by exactly 2 and
changes no other register (nor any other field). -/
theorem Fx0A_key_pressed (c : Chip8) (rnd x : Nat) (hx : x < 16)
    (hkey : ∃ k : Nat, k < 16 ∧ c.keys k = true)
    (hf : fetch c = some (0xF00A + x * 256)) :
    ∃ c1 k, Cycle c rnd = some c1 ∧
      k < 16 ∧ c.keys k = true ∧ (∀ j : Nat, j < k → c.keys j = false) ∧
      c1.v x = k ∧ c1.pc = c.pc + 2 ∧ (∀ j : Nat, j ≠ x → c1.v j = c.v j) ∧
      c1 = { c with pc := c.pc + 2, v := c1.v } := by
  have hF : (0xF00A + x * 256) &&& 0xF000 = 0xF000 := by rw [and_F000]; omega
  have hL : (0xF00A + x * 256) &&& 0x00FF = 0x0A := by rw [and_00FF]; omega
  have hX : regX (0xF00A + x * 256) = x := by rw [regX_eq]; omega
  have hpc := fetch_bound c _ hf
  have hpc2 : (c.pc + 2) % 65536 = c.pc + 2 := by omega
  -- the least pressed key
  have hex : ∃ k : Nat, k < 16 ∧ c.keys k = true := hkey
  let k := Nat.find hex
  have hk : k < 16 ∧ c.keys k = true := Nat.find_spec hex
  have hmin : ∀ j : Nat, j < k → c.keys j = false := by
    intro j hj
    have hnot := Nat.find_min hex hj
    cases hkj : c.keys j
    · rfl
    · exact absurd ⟨by omega, hkj⟩ hnot
  have hscan : scanKeys c.keys (List.range keyCount) = some (some k) := by
    rw [List.range_eq_range']
    exact scanKeys_first c.keys k hk.1 hk.2 hmin keyCount 0 (Nat.zero_le _)
      (by unfold keyCount; omega)
  have hk256 : k % 256 = k := by omega
  have hxr : x < registerCount := hx
  refine ⟨{ c with pc := c.pc + 2, v := setAt c.v x k }, k, ?_, hk.1, hk.2, hmin,
    setAt_same _ _ _, rfl, fun j hj => setAt_other _ _ _ _ hj, rfl⟩
  rw [Cycle_of_fetch c _ rnd hf]
  simp only [execute, hF, opF, hL, hX]
  simp only [Nat.reduceEqDiff, if_false, if_true, hscan, hpc2, hk256, assign, hxr,
    Option.some_bind, Option.bind_eq_bind, Option.pure_def]

/-- Instance of C11 on `F30A` with keys 6 and 9 down. -/
theorem Fx0A_key_pressed_witness :
    ∃ c1 k, Cycle keyPressedEx 0 = some c1 ∧
      k < 16 ∧ keyPressedEx.keys k = true ∧ (∀ j : Nat, j < k → keyPressedEx.keys j = false) ∧
      c1.v 3 = k ∧ c1.pc = keyPressedEx.pc + 2 ∧ (∀ j : Nat, j ≠ 3 → c1.v j = keyPressedEx.v j) ∧
      c1 = { keyPressedEx with pc := keyPressedEx.pc + 2, v := c1.v } :=
  Fx0A_key_pressed keyPressedEx 0 3 (by decide) ⟨9, by decide, by decide⟩ (by decide)

/-! ## End-to-end scenarios -/

/-- C12. From `NewChip8` with `60 0A 61 05 80 14` loaded at 0x200, three cycles
(whatever the random source returns) leave `V0 = 15`, `V1 = 5`, `VF = 0` and
`PC = 0x206`. -/
theorem scenario_add (r1 r2 r3 : Nat) :
    ∃ c0 c3, LoadROM NewChip8 (some [0x60, 0x0A, 0x61, 0x05, 0x80, 0x14]) = some (c0, none) ∧
      Cycles c0 [r1, r2, r3] = some c3 ∧
      c3.v 0 = 15 ∧ c3.v 1 = 5 ∧ c3.v 15 = 0 ∧ c3.pc = 0x206 :=
  ⟨_, _, rfl, rfl, rfl, rfl, rfl, rfl⟩

theorem Cycles_nil (c : Chip8) : Cycles c [] = some c := rfl

theorem Cycles_cons (c : Chip8) (r : Nat) (rs : List Nat) :
    Cycles c (r :: rs) = (Cycle c r).bind (fun c1 => Cycles c1 rs) := rfl

/-- C13. From `NewChip8` with `A0 50 D0 05 00 00` loaded at 0x200, two cycles
(LD I,0x050 then DRW V0,V0,5) leave cell `(x, y)` lit exactly when `x < 8`,
`y < 5` and bit `7 - x` of the `y`-th byte of `F0 90 90 90 F0` is set; every
other cell is off, the redraw flag is set and `VF = 0`. -/
theorem scenario_glyph (r1 r2 : Nat) :
    ∃ c0 c2, LoadROM NewChip8 (some [0xA0, 0x50, 0xD0, 0x05, 0x00, 0x00]) = some (c0, none) ∧
      Cycles c0 [r1, r2] = some c2 ∧
      (∀ px : Nat, px < 64 → ∀ py : Nat, py < 32 →
        (c2.display px py = true ↔
          (px < 8 ∧ py < 5 ∧ ([0xF0, 0x90, 0x90, 0x90, 0xF0].getD py 0).testBit (7 - px) = true))) ∧
      c2.draw = true ∧ c2.v 15 = 0 := by
  -- the state after loading and after `LD I,0x050`
  have hfirst : ∃ c0 c1, LoadROM NewChip8 (some [0xA0, 0x50, 0xD0, 0x05, 0x00, 0x00])
        = some (c0, none) ∧ Cycle c0 r1 = some c1 ∧
      fetch c1 = some (0xD000 + 0 * 256 + 0 * 16 + 5) ∧ c1.i = 0x50 ∧ c1.v 0 = 0 ∧
      (∀ row : Nat, row < 5 →
        c1.memory (0x50 + row) = [0xF0, 0x90, 0x90, 0x90, 0xF0].getD row 0) ∧
      (∀ px py : Nat, c1.display px py = false) :=
    ⟨_, _, rfl, rfl, rfl, rfl, rfl,
      fun row hrow => by interval_cases row <;> rfl, fun _ _ => rfl⟩
  obtain ⟨c0, c1, hc0, hc1, hf, hi, hv0, hmem, hclear⟩ := hfirst
  obtain ⟨c2, hc2, hD, hVF, _, hrest⟩ :=
    Cycle_DRW c1 r2 0 0 5 (by decide) (by decide) (by decide) hf (by rw [hi]; decide)
  have hrun : Cycles c0 [r1, r2] = some c2 := by
    rw [Cycles_cons, hc1, Option.some_bind, Cycles_cons, hc2, Option.some_bind, Cycles_nil]
  refine ⟨c0, c2, hc0, hrun, ?_, by rw [hrest], ?_⟩
  · intro px hpx py hpy
    rw [hD px py, hclear px py, hi, hv0]
    simp only [Bool.false_xor, decide_eq_true_eq, Nat.zero_add]
    constructor
    · rintro ⟨row, hrow, col, hcol, hbit, hx, hy⟩
      have hpx8 : px = col := by omega
      have hpy5 : py = row := by omega
      subst hpx8; subst hpy5
      rw [hmem py hrow] at hbit
      exact ⟨hcol, hrow, hbit⟩
    · rintro ⟨hpx8, hpy5, hbit⟩
      refine ⟨py, hpy5, px, hpx8, ?_, by omega, by omega⟩
      rw [hmem py hpy5]
      exact hbit
  · rw [hVF]
    apply if_neg
    rintro ⟨row, _, col, _, _, hon⟩
    rw [hclear] at hon
    exact Bool.noConfusion hon

/-! ## 00E0 -/

/-- Invariant of the inner loop of `00E0` for column `x`. -/
theorem clearCol_spec (x : Nat) (hx : x < 64) (d0 : Nat → Nat → Bool) :
    ∀ k : Nat, k ≤ 32 → ∃ D : Nat → Nat → Bool,
      (List.range k).foldlM (fun d y => assign2 d x y false) d0 = some D ∧
      ∀ px py : Nat, D px py = if px = x ∧ py < k then false else d0 px py := by
  intro k
  induction k with
  | zero =>
    intro _
    refine ⟨d0, rfl, ?_⟩
    intro px py
    have : ¬ (px = x ∧ py < 0) := by omega
    rw [if_neg this]
  | succ k ih =>
    intro hk
    obtain ⟨D, hD, hcell⟩ := ih (by omega)
    have hin : x < displayWidth ∧ k < displayHeight := by
      unfold displayWidth displayHeight; omega
    refine ⟨setAt D x (setAt (D x) k false), ?_, ?_⟩
    · rw [foldlM_range_succ, hD, Option.some_bind]
      unfold assign2
      rw [if_pos hin]
    · intro px py
      by_cases hpx : px = x
      · subst hpx
        rw [setAt_same]
        by_cases hpy : py = k
        · subst hpy
          rw [setAt_same, if_pos ⟨rfl, Nat.lt_succ_self _⟩]
        · rw [setAt_other _ _ _ _ hpy, hcell]
          by_cases h1 : py < k
          · rw [if_pos ⟨rfl, h1⟩, if_pos ⟨rfl, by omega⟩]
          · have h2 : ¬ (px = px ∧ py < k) := fun h => h1 h.2
            have h3 : ¬ (px = px ∧ py < k + 1) := by omega
            rw [if_neg h2, if_neg h3]
      · rw [setAt_other _ _ _ _ hpx, hcell]
        have h2 : ¬ (px = x ∧ py < k) := fun h => hpx h.1
        have h3 : ¬ (px = x ∧ py < k + 1) := fun h => hpx h.1
        rw [if_neg h2, if_neg h3]

/-- Invariant of the outer loop of `00E0`. -/
theorem clearAll_spec (d0 : Nat → Nat → Bool) :
    ∀ k : Nat, k ≤ 64 → ∃ D : Nat → Nat → Bool,
      (List.range k).foldlM
        (fun d x => (List.range displayHeight).foldlM (fun d y => assign2 d x y false) d) d0
        = some D ∧
      ∀ px py : Nat, D px py = if px < k ∧ py < 32 then false else d0 px py := by
  intro k
  induction k with
  | zero =>
    intro _
    refine ⟨d0, rfl, ?_⟩
    intro px py
    have : ¬ (px < 0 ∧ py < 32) := by omega
    rw [if_neg this]
  | succ k ih =>
    intro hk
    obtain ⟨D, hD, hcell⟩ := ih (by omega)
    obtain ⟨D1, hD1, hcell1⟩ := clearCol_spec k (by omega) D 32 (Nat.le_refl _)
    refine ⟨D1, ?_, ?_⟩
    · rw [foldlM_range_succ, hD, Option.some_bind]
      exact hD1
    · intro px py
      rw [hcell1, hcell]
      by_cases h1 : px = k ∧ py < 32
      · rw [if_pos h1, if_pos (by omega)]
      · rw [if_neg h1]
        by_cases h2 : px < k ∧ py < 32
        · rw [if_pos h2, if_pos (by omega)]
        · rw [if_neg h2, if_neg (by omega)]

/-- The effect of `opCLS`. -/
theorem opCLS_spec (c : Chip8) :
    ∃ D : Nat → Nat → Bool, opCLS c = some { c with display := D, draw := true } ∧
      ∀ px py : Nat, D px py = if px < 64 ∧ py < 32 then false else c.display px py := by
  obtain ⟨D, hD, hcell⟩ := clearAll_spec c.display 64 (Nat.le_refl _)
  refine ⟨D, ?_, hcell⟩
  unfold opCLS
  have hD' : (List.range displayWidth).foldlM
      (fun d x => (List.range displayHeight).foldlM (fun d y => assign2 d x y false) d)
      c.display = some D := hD
  rw [hD']
  rfl

/-- C19. One cycle on `00E0` leaves every one of the 64×32 framebuffer cells
false and the redraw flag true, whatever the framebuffer held; registers, `I`,
memory, stack, `SP`, timers and keypad are unchanged and PC is advanced by 2. -/
theorem CLS_00E0 (c : Chip8) (rnd : Nat) (hf : fetch c = some 0x00E0) :
    ∃ c1, Cycle c rnd = some c1 ∧
      (∀ px py : Nat, px < 64 → py < 32 → c1.display px py = false) ∧
      c1.draw = true ∧ c1.pc = c.pc + 2 ∧
      c1.v = c.v ∧ c1.i = c.i ∧ c1.memory = c.memory ∧ c1.stack = c.stack ∧ c1.sp = c.sp ∧
      c1.delayTimer = c.delayTimer ∧ c1.soundTimer = c.soundTimer ∧ c1.keys = c.keys ∧
      c1 = { c with pc := c.pc + 2, display := c1.display, draw := true } := by
  have hpc := fetch_bound c _ hf
  have hpc2 : (c.pc + 2) % 65536 = c.pc + 2 := by omega
  obtain ⟨D, hD, hcell⟩ := opCLS_spec { c with pc := (c.pc + 2) % 65536 }
  have hrun : Cycle c rnd = some { c with pc := c.pc + 2, display := D, draw := true } := by
    rw [Cycle_of_fetch c _ rnd hf]
    have h1 : (0x00E0 : Nat) &&& 0xF000 = 0 := by decide
    have h2 : (0x00E0 : Nat) &&& 0x00FF = 0xE0 := by decide
    simp only [execute, h1, h2, if_true]
    rw [hD, hpc2]
  refine ⟨_, hrun, ?_, rfl, rfl, rfl, rfl, rfl, rfl, rfl, rfl, rfl, rfl, rfl⟩
  intro px py hpx hpy
  show D px py = false
  rw [hcell, if_pos ⟨hpx, hpy⟩]

/-- Instance of C19 on a framebuffer with the diagonal lit. -/
theorem CLS_00E0_witness :
    ∃ c1, Cycle clsEx 0 = some c1 ∧
      (∀ px py : Nat, px < 64 → py < 32 → c1.display px py = false) ∧
      c1.draw = true ∧ c1.pc = clsEx.pc + 2 ∧
      c1.v = clsEx.v ∧ c1.i = clsEx.i ∧ c1.memory = clsEx.memory ∧ c1.stack = clsEx.stack ∧
      c1.sp = clsEx.sp ∧
      c1.delayTimer = clsEx.delayTimer ∧ c1.soundTimer = clsEx.soundTimer ∧
      c1.keys = clsEx.keys ∧
      c1 = { clsEx with pc := clsEx.pc + 2, display := c1.display, draw := true } :=
  CLS_00E0 clsEx 0 (by decide)

/-! ## UpdateTimers -/

/-- One tick written as a pair of truncated decrements. -/
theorem UpdateTimers_eq (c : Chip8) :
    UpdateTimers c
      = { c with delayTimer := c.delayTimer - 1, soundTimer := c.soundTimer - 1 } := by
  unfold UpdateTimers
  by_cases hd : c.delayTimer > 0
  · by_cases hs : c.soundTimer > 0
    · simp [hd, hs]
    · have : c.soundTimer = 0 := by omega
      simp [hd, this]
  · have hd0 : c.delayTimer = 0 := by omega
    by_cases hs : c.soundTimer > 0
    · simp [hd0, hs]
    · have : c.soundTimer = 0 := by omega
      cases c
      simp_all

/-- C20. `UpdateTimers` sets each timer to its old value minus 1 if that value
was nonzero and leaves it at 0 otherwise, each independently of the other, and
changes no other field; `k` ticks from value `t` leave `max(t - k, 0)`. -/
theorem UpdateTimers_tick (c : Chip8) :
    ((UpdateTimers c).delayTimer
        = if c.delayTimer ≠ 0 then c.delayTimer - 1 else 0) ∧
    ((UpdateTimers c).soundTimer
        = if c.soundTimer ≠ 0 then c.soundTimer - 1 else 0) ∧
    UpdateTimers c = { c with delayTimer := (UpdateTimers c).delayTimer,
                              soundTimer := (UpdateTimers c).soundTimer } ∧
    (∀ k : Nat,
      ((Nat.iterate UpdateTimers k c).delayTimer : Int)
          = max ((c.delayTimer : Int) - (k : Int)) 0 ∧
      ((Nat.iterate UpdateTimers k c).soundTimer : Int)
          = max ((c.soundTimer : Int) - (k : Int)) 0) := by
  refine ⟨?_, ?_, ?_, ?_⟩
  · rw [UpdateTimers_eq]
    show c.delayTimer - 1 = _
    split <;> omega
  · rw [UpdateTimers_eq]
    show c.soundTimer - 1 = _
    split <;> omega
  · rw [UpdateTimers_eq]
  · intro k
    have hiter : ∀ (n : Nat) (s : Chip8),
        (Nat.iterate UpdateTimers n s).delayTimer = s.delayTimer - n ∧
        (Nat.iterate UpdateTimers n s).soundTimer = s.soundTimer - n := by
      intro n
      induction n with
      | zero => intro s; exact ⟨rfl, rfl⟩
      | succ n ih =>
        intro s
        rw [Function.iterate_succ_apply]
        obtain ⟨h1, h2⟩ := ih (UpdateTimers s)
        rw [h1, h2, UpdateTimers_eq]
        constructor
        · show s.delayTimer - 1 - n = s.delayTimer - (n + 1)
          omega
        · show s.soundTimer - 1 - n = s.soundTimer - (n + 1)
          omega
    obtain ⟨h1, h2⟩ := hiter k c
    rw [h1, h2]
    constructor <;> omega

/-! ## 2nnn and 00EE -/

/-- C18. With `SP ≤ 15`, `2nnn` at `PC = p` and `00EE` stored at `nnn ≤ 0xFFE`:
the first cycle stores `p + 2` in `stack[SP]`, increments `SP` and sets
`PC = nnn`; the second cycle restores `SP` and sets `PC = p + 2`; afterwards the
state differs from the initial one only in PC and that one stack slot. -/
theorem CALL_RET_roundtrip (c : Chip8) (r1 r2 nnn : Nat) (hsp : c.sp ≤ 15)
    (hn : nnn ≤ 0xFFE) (hf : fetch c = some (0x2000 + nnn))
    (hret : c.memory nnn = 0x00 ∧ c.memory (nnn + 1) = 0xEE) :
    ∃ c1 c2, Cycle c r1 = some c1 ∧
      c1.stack c.sp = c.pc + 2 ∧ c1.sp = c.sp + 1 ∧ c1.pc = nnn ∧
      Cycle c1 r2 = some c2 ∧
      c2.sp = c.sp ∧ c2.pc = c.pc + 2 ∧
      c2 = { c with pc := c.pc + 2, stack := setAt c.stack c.sp (c.pc + 2) } := by
  have hpc := fetch_bound c _ hf
  have hpc2 : (c.pc + 2) % 65536 = c.pc + 2 := by omega
  have hF : (0x2000 + nnn) &&& 0xF000 = 0x2000 := by rw [and_F000]; omega
  have hA : (0x2000 + nnn) &&& 0x0FFF = nnn := by rw [and_0FFF]; omega
  have hs : c.sp < stackSize := by unfold stackSize; omega
  have hs1 : (c.sp + 1) % 256 = c.sp + 1 := by omega
  have hc1 : Cycle c r1 = some { c with
      pc := nnn
      sp := c.sp + 1
      stack := setAt c.stack c.sp (c.pc + 2) } := by
    rw [Cycle_of_fetch c _ r1 hf]
    simp only [execute, hF, opCALL, hA, hpc2, hs1, assign, hs]
    simp only [Nat.reduceEqDiff, if_false, if_true, Option.some_bind, Option.bind_eq_bind,
      Option.pure_def]
  -- the opcode fetched at `nnn` is `00EE`
  have hm0 : nnn < memorySize := by unfold memorySize; omega
  have hm1 : nnn + 1 < memorySize := by unfold memorySize; omega
  have hn1 : (nnn + 1) % 65536 = nnn + 1 := by omega
  have hf2 : fetch { c with
      pc := nnn
      sp := c.sp + 1
      stack := setAt c.stack c.sp (c.pc + 2) } = some 0x00EE := by
    unfold fetch
    simp only [index, hn1, hm0, hm1, if_true, Option.bind_eq_bind, Option.some_bind, hret.1,
      hret.2, Option.pure_def]
    rfl
  have hs2 : (c.sp + 1 + 255) % 256 = c.sp := by omega
  have hc2 : Cycle { c with
      pc := nnn
      sp := c.sp + 1
      stack := setAt c.stack c.sp (c.pc + 2) } r2
      = some { c with pc := c.pc + 2, stack := setAt c.stack c.sp (c.pc + 2) } := by
    rw [Cycle_of_fetch _ _ r2 hf2]
    have h1 : (0x00EE : Nat) &&& 0xF000 = 0 := by decide
    have h2 : (0x00EE : Nat) &&& 0x00FF = 0xEE := by decide
    simp only [execute, h1, h2, opRET, hs2, index, hs, setAt_same]
    simp only [Nat.reduceEqDiff, if_false, if_true, Option.some_bind, Option.bind_eq_bind,
      Option.pure_def]
  exact ⟨_, _, hc1, setAt_same _ _ _, rfl, rfl, hc2, rfl, rfl, rfl⟩

/-- Instance of C18 with `SP = 15`, the last free stack slot. -/
theorem CALL_RET_roundtrip_witness :
    ∃ c1 c2, Cycle callRetEx 0 = some c1 ∧
      c1.stack callRetEx.sp = callRetEx.pc + 2 ∧ c1.sp = callRetEx.sp + 1 ∧ c1.pc = 0x300 ∧
      Cycle c1 0 = some c2 ∧
      c2.sp = callRetEx.sp ∧ c2.pc = callRetEx.pc + 2 ∧
      c2 = { callRetEx with
        pc := callRetEx.pc + 2
        stack := setAt callRetEx.stack callRetEx.sp (callRetEx.pc + 2) } :=
  CALL_RET_roundtrip callRetEx 0 0 0x300 (by decide) (by decide) (by decide)
    ⟨by decide, by decide⟩

/-! ## Fx1E -/

/-- C16 (amended). One cycle on `Fx1E`, `x` in 0..15: `VF = 1` if the 16-bit
sum `(I + Vx) mod 2^16` exceeds 0xFFF and 0 otherwise, which is the untruncated
comparison whenever `I + Vx ≤ 0xFFFF`; and for `x` in 0..14,
`I = (I + Vx) mod 2^16` (old values on the right). -/
theorem ADD_I_Fx1E (c : Chip8) (rnd x : Nat) (hx : x < 16)
    (hf : fetch c = some (0xF01E + x * 256)) :
    ∃ c1, Cycle c rnd = some c1 ∧
      (c1.v 15 = if (c.i + c.v x) % 65536 > 0xFFF then 1 else 0) ∧
      (c.i + c.v x ≤ 0xFFFF → c1.v 15 = if c.i + c.v x > 0xFFF then 1 else 0) ∧
      (x ≠ 15 → c1.i = (c.i + c.v x) % 65536) := by
  have hF : (0xF01E + x * 256) &&& 0xF000 = 0xF000 := by rw [and_F000]; omega
  have hL : (0xF01E + x * 256) &&& 0x00FF = 0x1E := by rw [and_00FF]; omega
  have hX : regX (0xF01E + x * 256) = x := by rw [regX_eq]; omega
  rw [Cycle_of_fetch c _ rnd hf]
  simp only [execute, hF, opF, hL, hX]
  simp only [Nat.reduceEqDiff, if_false, if_true, index, assign, registerCount, hx,
    Nat.reduceLT, Option.some_bind, Option.bind_eq_bind, Option.pure_def]
  refine ⟨_, rfl, ?_, ?_, ?_⟩
  · exact setAt_same c.v 15 _
  · intro hsmall
    have h1 : (c.i + c.v x) % 65536 = c.i + c.v x := by omega
    have h3 : (if (c.i + c.v x) % 65536 > 4095 then 1 else 0)
        = (if c.i + c.v x > 4095 then 1 else 0) := by rw [h1]
    rw [← h3]
    exact setAt_same c.v 15 _
  · intro hx15
    have h2 : setAt c.v 15 (if (c.i + c.v x) % 65536 > 4095 then 1 else 0) x = c.v x :=
      setAt_other _ _ _ _ hx15
    show (c.i + setAt c.v 15 (if (c.i + c.v x) % 65536 > 4095 then 1 else 0) x) % 65536 = _
    rw [h2]

/-- Instance of C16 (amended) on `F21E` with `I = 0xFF0`, `V2 = 0x20`. -/
theorem ADD_I_Fx1E_witness :
    ∃ c1, Cycle addIEx 0 = some c1 ∧
      (c1.v 15 = if (addIEx.i + addIEx.v 2) % 65536 > 0xFFF then 1 else 0) ∧
      (addIEx.i + addIEx.v 2 ≤ 0xFFFF →
        c1.v 15 = if addIEx.i + addIEx.v 2 > 0xFFF then 1 else 0) ∧
      ((2 : Nat) ≠ 15 → c1.i = (addIEx.i + addIEx.v 2) % 65536) :=
  ADD_I_Fx1E addIEx 0 2 (by decide) (by decide)

/-- C16 as stated fails twice.  On `F01E` with `I = 0xFFFF`, `V0 = 1` the
untruncated sum 0x10000 exceeds 0xFFF, yet `VF = 0`: the comparison is made on
the wrapped 16-bit sum.  On `FF1E` with `I = 0x10`, `VF = 7` the cycle leaves
`I = 0x10`, not 0x17: the flag is written to VF before VF is added to `I`. -/
theorem ADD_I_Fx1E_counterexample :
    (fetch addIWrapCex = some 0xF01E ∧ addIWrapCex.i = 0xFFFF ∧ addIWrapCex.v 0 = 1 ∧
      (Cycle addIWrapCex 0).map (fun c => c.v 15) = some 0 ∧
      ¬ ((Cycle addIWrapCex 0).map (fun c => c.v 15)
          = some (if addIWrapCex.i + addIWrapCex.v 0 > 0xFFF then 1 else 0))) ∧
    (fetch addIFlagCex = some 0xFF1E ∧ addIFlagCex.i = 0x10 ∧ addIFlagCex.v 15 = 7 ∧
      (Cycle addIFlagCex 0).map (fun c => c.i) = some 0x10 ∧
      ¬ ((Cycle addIFlagCex 0).map (fun c => c.i)
          = some ((addIFlagCex.i + addIFlagCex.v 15) % 65536))) := by
  decide

/-! ## Opcodes without a case -/

/-- C14 (amended). On a cycle that fetches opcode `op`:
(1) if `op` reaches no case of the decoder -- family 0 with a low byte other
than E0 and EE, `8xy8..8xyD`, `8xyF`, `Exkk` with `kk` other than 9E and A1,
`Fxkk` with `kk` none of 07, 0A, 15, 18, 1E, 29, 33, 55, 65 -- the cycle changes
nothing but PC, which is advanced by 2, and raises no error;
(2) `0nE0` is executed exactly as `00E0` and `0nEE` exactly as `00EE`, for
every `n`;
(3) `5xyN` is executed exactly as `5xy0` for every `N`: PC advances by 4 if
`Vx = Vy` and by 2 otherwise, nothing else changes;
(4) `9xyN` is executed exactly as `9xy0` for every `N`: PC advances by 4 if
`Vx ≠ Vy` and by 2 otherwise, nothing else changes. -/
theorem unrecognized_noop (c : Chip8) (rnd op : Nat) (hf : fetch c = some op) :
    (((op / 4096 = 0 ∧ op % 256 ≠ 0xE0 ∧ op % 256 ≠ 0xEE) ∨
      (op / 4096 = 8 ∧ 8 ≤ op % 16 ∧ op % 16 ≠ 0xE) ∨
      (op / 4096 = 14 ∧ op % 256 ≠ 0x9E ∧ op % 256 ≠ 0xA1) ∨
      (op / 4096 = 15 ∧ op % 256 ≠ 0x07 ∧ op % 256 ≠ 0x0A ∧ op % 256 ≠ 0x15 ∧
        op % 256 ≠ 0x18 ∧ op % 256 ≠ 0x1E ∧ op % 256 ≠ 0x29 ∧ op % 256 ≠ 0x33 ∧
        op % 256 ≠ 0x55 ∧ op % 256 ≠ 0x65)) →
      Cycle c rnd = some { c with pc := c.pc + 2 }) ∧
    (op / 4096 = 0 → op % 256 = 0xE0 →
      Cycle c rnd = execute { c with pc := c.pc + 2 } 0x00E0 rnd) ∧
    (op / 4096 = 0 → op % 256 = 0xEE →
      Cycle c rnd = execute { c with pc := c.pc + 2 } 0x00EE rnd) ∧
    (op / 4096 = 5 →
      Cycle c rnd = execute { c with pc := c.pc + 2 } (op - op % 16) rnd ∧
      Cycle c rnd = some { c with
        pc := if c.v (op / 256 % 16) = c.v (op / 16 % 16) then c.pc + 4 else c.pc + 2 }) ∧
    (op / 4096 = 9 →
      Cycle c rnd = execute { c with pc := c.pc + 2 } (op - op % 16) rnd ∧
      Cycle c rnd = some { c with
        pc := if c.v (op / 256 % 16) ≠ c.v (op / 16 % 16) then c.pc + 4 else c.pc + 2 }) := by
  have hpc := fetch_bound c _ hf
  have hpc2 : (c.pc + 2) % 65536 = c.pc + 2 := by omega
  have hpc4 : (c.pc + 2 + 2) % 65536 = c.pc + 4 := by omega
  have hx : op / 256 % 16 < 16 := Nat.mod_lt _ (by decide)
  have hy : op / 16 % 16 < 16 := Nat.mod_lt _ (by decide)
  have hx0 : (op - op % 16) / 256 % 16 = op / 256 % 16 := by omega
  have hy0 : (op - op % 16) / 16 % 16 = op / 16 % 16 := by omega
  rw [Cycle_of_fetch c _ rnd hf, hpc2]
  refine ⟨?_, ?_, ?_, ?_, ?_⟩
  · intro hun
    rcases hun with ⟨h0, h1, h2⟩ | ⟨h0, h1, h2⟩ | ⟨h0, h1, h2⟩ |
      ⟨h0, h1, h2, h3, h4, h5, h6, h7, h8, h9⟩
    · have hF : op &&& 0xF000 = 0 := by rw [and_F000]; omega
      simp only [execute, hF, and_00FF, h1, h2, if_true, if_false]
    · have hF : op &&& 0xF000 = 0x8000 := by rw [and_F000]; omega
      have n0 : op % 16 ≠ 0 := by omega
      have n1 : op % 16 ≠ 1 := by omega
      have n2 : op % 16 ≠ 2 := by omega
      have n3 : op % 16 ≠ 3 := by omega
      have n4 : op % 16 ≠ 4 := by omega
      have n5 : op % 16 ≠ 5 := by omega
      have n6 : op % 16 ≠ 6 := by omega
      have n7 : op % 16 ≠ 7 := by omega
      simp only [execute, hF, opALU, and_000F, n0, n1, n2, n3, n4, n5, n6, n7, h2,
        Nat.reduceEqDiff, if_true, if_false]
    · have hF : op &&& 0xF000 = 0xE000 := by rw [and_F000]; omega
      simp only [execute, hF, opKEY, and_00FF, h1, h2, Nat.reduceEqDiff, if_true, if_false]
    · have hF : op &&& 0xF000 = 0xF000 := by rw [and_F000]; omega
      simp only [execute, hF, opF, and_00FF, h1, h2, h3, h4, h5, h6, h7, h8, h9,
        Nat.reduceEqDiff, if_true, if_false]
  · intro h0 hE
    have hF : op &&& 0xF000 = 0 := by rw [and_F000]; omega
    have hL : execute { c with pc := c.pc + 2 } op rnd = opCLS { c with pc := c.pc + 2 } := by
      simp only [execute, hF, and_00FF, hE, if_true]
    rw [hL]
    rfl
  · intro h0 hE
    have hF : op &&& 0xF000 = 0 := by rw [and_F000]; omega
    have hL : execute { c with pc := c.pc + 2 } op rnd = opRET { c with pc := c.pc + 2 } := by
      simp only [execute, hF, and_00FF, hE, Nat.reduceEqDiff, if_true, if_false]
    rw [hL]
    rfl
  · intro h5
    have hF : op &&& 0xF000 = 0x5000 := by rw [and_F000]; omega
    have hF0 : (op - op % 16) &&& 0xF000 = 0x5000 := by rw [and_F000]; omega
    have hL : execute { c with pc := c.pc + 2 } op rnd
        = some (if c.v (op / 256 % 16) = c.v (op / 16 % 16)
            then skip { c with pc := c.pc + 2 } else { c with pc := c.pc + 2 }) := by
      simp [execute, hF, regX_eq, regY_eq, index, registerCount, hx, hy]
    have hR : execute { c with pc := c.pc + 2 } (op - op % 16) rnd
        = some (if c.v (op / 256 % 16) = c.v (op / 16 % 16)
            then skip { c with pc := c.pc + 2 } else { c with pc := c.pc + 2 }) := by
      simp [execute, hF0, regX_eq, regY_eq, index, registerCount, hx0, hy0, hx, hy]
    refine ⟨by rw [hL, hR], ?_⟩
    rw [hL]
    by_cases hab : c.v (op / 256 % 16) = c.v (op / 16 % 16)
    · simp only [hab, if_true, skip, hpc4]
    · simp only [hab, if_false]
  · intro h9
    have hF : op &&& 0xF000 = 0x9000 := by rw [and_F000]; omega
    have hF0 : (op - op % 16) &&& 0xF000 = 0x9000 := by rw [and_F000]; omega
    have hL : execute { c with pc := c.pc + 2 } op rnd
        = some (if c.v (op / 256 % 16) ≠ c.v (op / 16 % 16)
            then skip { c with pc := c.pc + 2 } else { c with pc := c.pc + 2 }) := by
      simp [execute, hF, regX_eq, regY_eq, index, registerCount, hx, hy]
    have hR : execute { c with pc := c.pc + 2 } (op - op % 16) rnd
        = some (if c.v (op / 256 % 16) ≠ c.v (op / 16 % 16)
            then skip { c with pc := c.pc + 2 } else { c with pc := c.pc + 2 }) := by
      simp [execute, hF0, regX_eq, regY_eq, index, registerCount, hx0, hy0, hx, hy]
    refine ⟨by rw [hL, hR], ?_⟩
    rw [hL]
    by_cases hab : c.v (op / 256 % 16) = c.v (op / 16 % 16)
    · simp only [hab, ne_eq, not_true_eq_false, if_false]
    · simp only [hab, ne_eq, not_false_eq_true, if_true, skip, hpc4]

/-- Instances of C14 (amended): the no-op `8128`; `5001` with `V0 = V0`
(executed as `5000`, PC advances by 4); `01EE` with `SP = 1` (executed as
`00EE`). -/
theorem unrecognized_noop_witness :
    Cycle noCaseEx 0 = some { noCaseEx with pc := noCaseEx.pc + 2 } ∧
    (Cycle skipCex 0 = execute { skipCex with pc := skipCex.pc + 2 } (0x5001 - 0x5001 % 16) 0 ∧
      Cycle skipCex 0 = some { skipCex with
        pc := if skipCex.v (0x5001 / 256 % 16) = skipCex.v (0x5001 / 16 % 16)
          then skipCex.pc + 4 else skipCex.pc + 2 }) ∧
    Cycle retCex 0 = execute { retCex with pc := retCex.pc + 2 } 0x00EE 0 :=
  ⟨(unrecognized_noop noCaseEx 0 0x8128 (by decide)).1 (Or.inr (Or.inl (by decide))),
    (unrecognized_noop skipCex 0 0x5001 (by decide)).2.2.2.1 (by decide),
    (unrecognized_noop retCex 0 0x01EE (by decide)).2.2.1 (by decide) (by decide)⟩

/-- C14 as stated fails on opcodes outside the 35 patterns that the decoder
still dispatches.  `5001` is executed as `5xy0`: `V0 = V0`, so PC advances by
4.  `01EE` is executed as `00EE`: with `SP = 1` and `stack[0] = 0x400` it
leaves `SP = 0` and `PC = 0x400`. -/
theorem unrecognized_noop_counterexample :
    (fetch skipCex = some 0x5001 ∧
      (Cycle skipCex 0).map (fun c => c.pc) = some (skipCex.pc + 4) ∧
      ¬ ((Cycle skipCex 0).map (fun c => c.pc) = some (skipCex.pc + 2))) ∧
    (fetch retCex = some 0x01EE ∧
      (Cycle retCex 0).map (fun c => (c.pc, c.sp)) = some (0x400, 0) ∧
      ¬ ((Cycle retCex 0).map (fun c => (c.pc, c.sp)) = some (retCex.pc + 2, retCex.sp))) := by
  decide

/-! ## Runtime errors -/

/-- The key scan over indices below 16 never leaves the keypad. -/
theorem scanKeys_total (keys : Nat → Bool) (l : List Nat) (h : ∀ k, k ∈ l → k < 16) :
    ∃ r, scanKeys keys l = some r := by
  induction l with
  | nil => exact ⟨none, rfl⟩
  | cons k rest ih =>
    have hk : k < keyCount := h k (List.mem_cons_self k rest)
    obtain ⟨r, hr⟩ := ih (fun j hj => h j (List.mem_cons_of_mem k hj))
    unfold scanKeys
    simp only [index, hk, if_true, Option.bind_eq_bind, Option.some_bind]
    cases hp : keys k
    · simp only [Bool.false_eq_true, if_false]
      exact ⟨r, hr⟩
    · simp only [if_true, Option.pure_def]
      exact ⟨some k, rfl⟩

/-- The families whose cases only index the register file never fail. -/
theorem execute_regs_total (c : Chip8) (op rnd : Nat)
    (hfam : op / 4096 = 1 ∨ op / 4096 = 3 ∨ op / 4096 = 4 ∨ op / 4096 = 5 ∨ op / 4096 = 6 ∨
      op / 4096 = 7 ∨ op / 4096 = 9 ∨ op / 4096 = 10 ∨ op / 4096 = 11 ∨ op / 4096 = 12) :
    ∃ c1, execute c op rnd = some c1 := by
  have hx : op / 256 % 16 < 16 := Nat.mod_lt _ (by decide)
  have hy : op / 16 % 16 < 16 := Nat.mod_lt _ (by decide)
  rcases hfam with h | h | h | h | h | h | h | h | h | h
  all_goals
    have hF : op &&& 0xF000 = op / 4096 * 4096 := by rw [and_F000]; omega
    rw [h] at hF
    simp [execute, hF, regX_eq, regY_eq, index, assign, registerCount, hx, hy]

/-- The `0x8000` family never fails. -/
theorem opALU_total (c : Chip8) (op : Nat) : ∃ c1, opALU c op = some c1 := by
  have hx : op / 256 % 16 < 16 := Nat.mod_lt _ (by decide)
  have hy : op / 16 % 16 < 16 := Nat.mod_lt _ (by decide)
  have hn : op % 16 < 16 := Nat.mod_lt _ (by decide)
  unfold opALU
  simp only [and_000F, regX_eq, regY_eq]
  interval_cases hN : op % 16 <;>
    simp [index, assign, registerCount, hx, hy]

/-- One cycle on `Dxy0`: no sprite row is read. -/
theorem Cycle_DRW_zero (c : Chip8) (rnd op : Nat) (hf : fetch c = some op)
    (hfam : op / 4096 = 13) (hn : op % 16 = 0) : ∃ c1, Cycle c rnd = some c1 := by
  have hx : op / 256 % 16 < 16 := Nat.mod_lt _ (by decide)
  have hy : op / 16 % 16 < 16 := Nat.mod_lt _ (by decide)
  have hF : op &&& 0xF000 = 0xD000 := by rw [and_F000]; omega
  rw [Cycle_of_fetch c _ rnd hf]
  simp [execute, hF, opDRW, and_000F, hn, regX_eq, regY_eq, index, assign, registerCount,
    hx, hy]

/-- C15 (amended). A cycle whose two opcode bytes lie in memory completes
without a runtime error provided the instruction's own array accesses are in
range: `1 ≤ SP ≤ 16` for `00EE`, `SP ≤ 15` for `2nnn`, `I + n ≤ 4096` for `Dxyn`
with `n ≥ 1`, `Vx ≤ 15` for `Ex9E` / `ExA1`, `I ≤ 4093` for `Fx33` and
`I + x ≤ 4095` for `Fx55` / `Fx65`; every other opcode never fails. -/
theorem Cycle_no_panic (c : Chip8) (rnd op : Nat) (hf : fetch c = some op)
    (hop : op < 65536)
    (hret : op / 4096 = 0 → op % 256 = 0xEE → 1 ≤ c.sp ∧ c.sp ≤ 16)
    (hcall : op / 4096 = 2 → c.sp ≤ 15)
    (hdrw : op / 4096 = 13 → op % 16 ≠ 0 → c.i + op % 16 ≤ 4096)
    (hkey : op / 4096 = 14 → (op % 256 = 0x9E ∨ op % 256 = 0xA1) →
      c.v (op / 256 % 16) ≤ 15)
    (hbcd : op / 4096 = 15 → op % 256 = 0x33 → c.i ≤ 4093)
    (hregs : op / 4096 = 15 → (op % 256 = 0x55 ∨ op % 256 = 0x65) →
      c.i + op / 256 % 16 ≤ 4095) :
    ∃ c1, Cycle c rnd = some c1 := by
  have hx : op / 256 % 16 < 16 := Nat.mod_lt _ (by decide)
  have hy : op / 16 % 16 < 16 := Nat.mod_lt _ (by decide)
  have hfam : op / 4096 < 16 := by omega
  have hF : op &&& 0xF000 = op / 4096 * 4096 := by rw [and_F000]; omega
  interval_cases hq : op / 4096
  · -- 0x0000: CLS, RET or nothing
    rw [Cycle_of_fetch c _ rnd hf]
    by_cases hE0 : op % 256 = 0xE0
    · obtain ⟨D, hD, _⟩ := opCLS_spec { c with pc := (c.pc + 2) % 65536 }
      simp only [execute, hF, and_00FF, hE0, if_true]
      exact ⟨_, hD⟩
    · by_cases hEE : op % 256 = 0xEE
      · obtain ⟨h1, h2⟩ := hret rfl hEE
        have hs : (c.sp + 255) % 256 < 16 := by omega
        simp [execute, hF, and_00FF, hEE, opRET, index, stackSize, hs]
      · simp [execute, hF, and_00FF, hE0, hEE]
  · rw [Cycle_of_fetch c _ rnd hf]
    exact execute_regs_total _ op rnd (by omega)
  · -- 0x2000: CALL
    rw [Cycle_of_fetch c _ rnd hf]
    have hs : c.sp < 16 := by have := hcall rfl; omega
    simp [execute, hF, opCALL, assign, stackSize, hs]
  · rw [Cycle_of_fetch c _ rnd hf]
    exact execute_regs_total _ op rnd (by omega)
  · rw [Cycle_of_fetch c _ rnd hf]
    exact execute_regs_total _ op rnd (by omega)
  · rw [Cycle_of_fetch c _ rnd hf]
    exact execute_regs_total _ op rnd (by omega)
  · rw [Cycle_of_fetch c _ rnd hf]
    exact execute_regs_total _ op rnd (by omega)
  · rw [Cycle_of_fetch c _ rnd hf]
    exact execute_regs_total _ op rnd (by omega)
  · -- 0x8000
    rw [Cycle_of_fetch c _ rnd hf]
    obtain ⟨c1, h1⟩ := opALU_total { c with pc := (c.pc + 2) % 65536 } op
    simp only [execute, hF, Nat.reduceMul, Nat.reduceEqDiff, if_true, if_false]
    exact ⟨c1, h1⟩
  · rw [Cycle_of_fetch c _ rnd hf]
    exact execute_regs_total _ op rnd (by omega)
  · rw [Cycle_of_fetch c _ rnd hf]
    exact execute_regs_total _ op rnd (by omega)
  · rw [Cycle_of_fetch c _ rnd hf]
    exact execute_regs_total _ op rnd (by omega)
  · rw [Cycle_of_fetch c _ rnd hf]
    exact execute_regs_total _ op rnd (by omega)
  · -- 0xD000: DRW
    by_cases hn0 : op % 16 = 0
    · exact Cycle_DRW_zero c rnd op hf hq hn0
    · have hI := hdrw rfl hn0
      have hform : op = 0xD000 + op / 256 % 16 * 256 + op / 16 % 16 * 16 + op % 16 := by
        omega
      rw [hform] at hf
      obtain ⟨c1, h1, _⟩ := Cycle_DRW c rnd (op / 256 % 16) (op / 16 % 16) (op % 16) hx hy
        (Nat.mod_lt _ (by decide)) hf hI
      exact ⟨c1, h1⟩
  · -- 0xE000: SKP, SKNP or nothing
    rw [Cycle_of_fetch c _ rnd hf]
    by_cases h9E : op % 256 = 0x9E
    · have hk : c.v (op / 256 % 16) < 16 := by have := hkey rfl (Or.inl h9E); omega
      simp [execute, hF, opKEY, and_00FF, h9E, regX_eq, index, registerCount, keyCount, hx, hk]
    · by_cases hA1 : op % 256 = 0xA1
      · have hk : c.v (op / 256 % 16) < 16 := by have := hkey rfl (Or.inr hA1); omega
        simp [execute, hF, opKEY, and_00FF, hA1, regX_eq, index, registerCount, keyCount, hx,
          hk]
      · simp [execute, hF, opKEY, and_00FF, h9E, hA1]
  · -- 0xF000
    by_cases h55 : op % 256 = 0x55
    · have hI := hregs rfl (Or.inl h55)
      have hform : op = 0xF055 + op / 256 % 16 * 256 := by omega
      rw [hform] at hf
      obtain ⟨m, h1, _⟩ := Cycle_Fx55 c rnd (op / 256 % 16) hx hI hf
      exact ⟨_, h1⟩
    by_cases h65 : op % 256 = 0x65
    · have hI := hregs rfl (Or.inr h65)
      have hform : op = 0xF065 + op / 256 % 16 * 256 := by omega
      rw [hform] at hf
      obtain ⟨V, h1, _⟩ := Cycle_Fx65 c rnd (op / 256 % 16) hx hI hf
      exact ⟨_, h1⟩
    rw [Cycle_of_fetch c _ rnd hf]
    by_cases h0A : op % 256 = 0x0A
    · obtain ⟨r, hr⟩ := scanKeys_total c.keys (List.range keyCount)
        (fun k hk => List.mem_range.1 hk)
      cases r with
      | none => simp [execute, hF, opF, and_00FF, h0A, hr]
      | some k => simp [execute, hF, opF, and_00FF, h0A, hr, regX_eq, assign, registerCount, hx]
    by_cases h33 : op % 256 = 0x33
    · have hI := hbcd rfl h33
      have h0 : c.i < 4096 := by omega
      have h1 : (c.i + 1) % 65536 < 4096 := by omega
      have h2 : (c.i + 2) % 65536 < 4096 := by omega
      simp [execute, hF, opF, and_00FF, h33, regX_eq, index, assign, registerCount, memorySize,
        hx, h0, h1, h2]
    by_cases h07 : op % 256 = 0x07
    · simp [execute, hF, opF, and_00FF, h07, regX_eq, assign, registerCount, hx]
    by_cases h15 : op % 256 = 0x15
    · simp [execute, hF, opF, and_00FF, h15, regX_eq, index, registerCount, hx]
    by_cases h18 : op % 256 = 0x18
    · simp [execute, hF, opF, and_00FF, h18, regX_eq, index, registerCount, hx]
    by_cases h1E : op % 256 = 0x1E
    · simp [execute, hF, opF, and_00FF, h1E, regX_eq, index, assign, registerCount, hx]
    by_cases h29 : op % 256 = 0x29
    · simp [execute, hF, opF, and_00FF, h29, regX_eq, index, registerCount, hx]
    simp [execute, hF, opF, and_00FF, h0A, h33, h07, h15, h18, h1E, h29, h55, h65]

/-- Instance of C15 (amended) on `2300` (CALL) with `SP = 15`. -/
theorem Cycle_no_panic_witness : ∃ c1, Cycle callRetEx 0 = some c1 :=
  Cycle_no_panic callRetEx 0 0x2300 (by decide) (by decide) (by decide) (by decide)
    (by decide) (by decide) (by decide) (by decide)

/-- C15 as stated fails: with `PC = 0x200` the cycle panics on `00EE` when
`SP = 0` (`stack[255]`), on `E09E` when `V0 = 16` (`keys[16]`) and on `D001`
when `I = 4096` (`memory[4096]`). -/
theorem Cycle_no_panic_counterexample :
    (retPanicEx.pc ≤ 0xFFE ∧ fetch retPanicEx = some 0x00EE ∧ retPanicEx.sp = 0 ∧
      Cycle retPanicEx 0 = none) ∧
    (keyPanicEx.pc ≤ 0xFFE ∧ fetch keyPanicEx = some 0xE09E ∧ keyPanicEx.v 0 = 16 ∧
      Cycle keyPanicEx 0 = none) ∧
    (drawPanicEx.pc ≤ 0xFFE ∧ fetch drawPanicEx = some 0xD001 ∧ drawPanicEx.i = 4096 ∧
      Cycle drawPanicEx 0 = none) :=
  ⟨⟨by decide, by decide, rfl, rfl⟩, ⟨by decide, by decide, rfl, rfl⟩,
    ⟨by decide, by decide, rfl, rfl⟩⟩

/-! ## Program counter alignment -/

theorem bind_all {α β : Type} (P : β → Prop) (x : Option α) (f : α → Option β)
    (h : ∀ a, ∀ b, f a = some b → P b) : ∀ b, x.bind f = some b → P b := by
  intro b hb
  cases x with
  | none => simp at hb
  | some a => exact h a b hb

theorem some_all {β : Type} (P : β → Prop) (s : β) (h : P s) : ∀ b, some s = some b → P b := by
  intro b hb
  cases hb
  exact h

theorem bind_all_of {α β : Type} (P : β → Prop) (x : Option α) (f : α → Option β)
    (h : ∀ a, x = some a → ∀ b, f a = some b → P b) : ∀ b, x.bind f = some b → P b := by
  intro b hb
  cases x with
  | none => simp at hb
  | some a => exact h a rfl b hb

theorem ite_all {β : Type} (P : β → Prop) (p : Prop) [Decidable p] (A B : Option β)
    (hA : p → ∀ b, A = some b → P b) (hB : ¬p → ∀ b, B = some b → P b) :
    ∀ b, (if p then A else B) = some b → P b := by
  split
  · exact hA (by assumption)
  · exact hB (by assumption)

theorem some_ite_all {β : Type} (P : β → Prop) (p : Prop) [Decidable p] (s t : β)
    (hs : P s) (ht : P t) : ∀ b, some (if p then s else t) = some b → P b := by
  intro b hb
  cases hb
  split
  · exact hs
  · exact ht

theorem index_some {α : Type} (size : Nat) (arr : Nat → α) (k : Nat) (a : α)
    (h : index size arr k = some a) : k < size ∧ a = arr k := by
  unfold index at h
  split at h
  · exact ⟨by assumption, (Option.some.inj h).symm⟩
  · cases h

theorem assign_some {α : Type} (size : Nat) (arr : Nat → α) (k : Nat) (val : α) (m : Nat → α)
    (h : assign size arr k val = some m) : k < size ∧ m = setAt arr k val := by
  unfold assign at h
  split at h
  · exact ⟨by assumption, (Option.some.inj h).symm⟩
  · cases h

theorem foldlM_all {α β : Type} (P : β → Prop) (f : β → α → Option β)
    (hf : ∀ b a b1, P b → f b a = some b1 → P b1) :
    ∀ (l : List α) (b b1 : β), P b → l.foldlM f b = some b1 → P b1 := by
  intro l
  induction l with
  | nil =>
    intro b b1 hb h
    cases h
    exact hb
  | cons a rest ih =>
    intro b b1 hb h
    rw [List.foldlM_cons] at h
    cases hfa : f b a with
    | none => rw [hfa] at h; simp at h
    | some b2 =>
      rw [hfa] at h
      exact ih b2 b1 (hf b a b2 hb hfa) h

theorem Near_refl (c : Chip8) : Near c c := ⟨rfl, Or.inl rfl⟩

theorem Near_skip (c : Chip8) : Near c (skip c) := ⟨rfl, Or.inr (Or.inl rfl)⟩

theorem Near_even (c c1 : Chip8) (h : Near c c1) (he : EvenPC c) : EvenPC c1 := by
  obtain ⟨hst, hpc⟩ := h
  obtain ⟨h1, h2⟩ := he
  refine ⟨?_, ?_⟩
  · rcases hpc with h | h | h <;> rw [h] <;> omega
  · rw [hst]; exact h2

theorem opALU_near (c : Chip8) (op : Nat) : ∀ c1, opALU c op = some c1 → Near c c1 := by
  unfold opALU
  simp only [Option.bind_eq_bind, Option.pure_def]
  repeat' first
    | exact some_all _ _ ⟨rfl, Or.inl rfl⟩
    | (apply bind_all; intro _)
    | (apply ite_all <;> intro _)

theorem drawBit_frame (x y yLine pixel : Nat) (c0 d : Chip8) (xLine : Nat)
    (hd : d.pc = c0.pc ∧ d.stack = c0.stack) :
    ∀ d1, drawBit x y yLine pixel d xLine = some d1 → d1.pc = c0.pc ∧ d1.stack = c0.stack := by
  unfold drawBit
  simp only [Option.bind_eq_bind, Option.pure_def]
  repeat' first
    | exact some_all _ _ hd
    | (apply bind_all; intro _)
    | (apply ite_all <;> intro _)

theorem drawRow_frame (x y : Nat) (c0 d : Chip8) (yLine : Nat)
    (hd : d.pc = c0.pc ∧ d.stack = c0.stack) :
    ∀ d1, drawRow x y d yLine = some d1 → d1.pc = c0.pc ∧ d1.stack = c0.stack := by
  unfold drawRow
  simp only [Option.bind_eq_bind, Option.pure_def]
  apply bind_all
  intro pixel d1 h
  exact foldlM_all (fun s => s.pc = c0.pc ∧ s.stack = c0.stack) (drawBit x y yLine pixel)
    (fun b a b1 hb hfa => drawBit_frame x y yLine pixel c0 b a hb b1 hfa) _ d d1 hd h

theorem opDRW_near (c : Chip8) (op : Nat) : ∀ c1, opDRW c op = some c1 → Near c c1 := by
  unfold opDRW
  simp only [Option.bind_eq_bind, Option.pure_def]
  apply bind_all
  intro x
  apply bind_all
  intro y
  apply bind_all
  intro v
  apply bind_all_of
  intro d hd
  have hfr := foldlM_all (fun s => s.pc = c.pc ∧ s.stack = c.stack) (drawRow x y)
    (fun b a b1 hb hfa => drawRow_frame x y c b a hb b1 hfa) _ _ d ⟨rfl, rfl⟩ hd
  exact some_all _ _ ⟨hfr.2, Or.inl hfr.1⟩

theorem opCLS_near (c : Chip8) : ∀ c1, opCLS c = some c1 → Near c c1 := by
  unfold opCLS
  simp only [Option.bind_eq_bind, Option.pure_def]
  apply bind_all
  intro d
  exact some_all _ _ ⟨rfl, Or.inl rfl⟩

theorem opKEY_near (c : Chip8) (op : Nat) : ∀ c1, opKEY c op = some c1 → Near c c1 := by
  unfold opKEY
  simp only [Option.bind_eq_bind, Option.pure_def]
  repeat' first
    | exact some_all _ _ ⟨rfl, Or.inl rfl⟩
    | exact some_ite_all _ _ _ _ ⟨rfl, Or.inr (Or.inl rfl)⟩ ⟨rfl, Or.inl rfl⟩
    | (apply bind_all; intro _)
    | (apply ite_all <;> intro _)

theorem opF_near (c : Chip8) (op : Nat) : ∀ c1, opF c op = some c1 → Near c c1 := by
  unfold opF
  simp only [Option.bind_eq_bind, Option.pure_def]
  repeat' first
    | exact some_all _ _ ⟨by with_reducible rfl, Or.inl (by with_reducible rfl)⟩
    | exact some_all _ _ ⟨by with_reducible rfl, Or.inr (Or.inr (by with_reducible rfl))⟩
    | (apply bind_all; intro (found : Option Nat); cases found)
    | (apply bind_all; intro _)
    | (apply ite_all <;> intro _)

theorem opRET_even (c : Chip8) (he : EvenPC c) : ∀ c1, opRET c = some c1 → EvenPC c1 := by
  unfold opRET
  simp only [Option.bind_eq_bind, Option.pure_def]
  apply bind_all_of
  intro ret hret
  obtain ⟨hlt, rfl⟩ := index_some _ _ _ _ hret
  exact some_all _ _ ⟨he.2 _ hlt, he.2⟩

theorem opCALL_even (c : Chip8) (op : Nat) (he : EvenPC c) (hn : (op &&& 0x0FFF) % 2 = 0) :
    ∀ c1, opCALL c op = some c1 → EvenPC c1 := by
  unfold opCALL
  simp only [Option.bind_eq_bind, Option.pure_def]
  apply bind_all_of
  intro st hst
  obtain ⟨_, rfl⟩ := assign_some _ _ _ _ _ hst
  refine some_all _ _ ⟨hn, fun k hk => ?_⟩
  show setAt c.stack c.sp c.pc k % 2 = 0
  unfold setAt
  split
  · exact he.1
  · exact he.2 k hk

theorem execute_even (c : Chip8) (op rnd : Nat) (he : EvenPC c)
    (hj : (op &&& 0xF000 = 0x1000 ∨ op &&& 0xF000 = 0x2000) → (op &&& 0x0FFF) % 2 = 0)
    (hb : op &&& 0xF000 = 0xB000 → ((op &&& 0x0FFF) + c.v 0) % 2 = 0) :
    ∀ c1, execute c op rnd = some c1 → EvenPC c1 := by
  unfold execute
  simp only [Option.bind_eq_bind, Option.pure_def]
  apply ite_all
  · intro _
    apply ite_all
    · intro _
      exact fun c1 h => Near_even c c1 (opCLS_near c c1 h) he
    intro _
    apply ite_all
    · intro _
      exact opRET_even c he
    intro _
    exact some_all _ _ he
  intro _
  apply ite_all
  · intro h1
    exact some_all _ _ ⟨hj (Or.inl h1), he.2⟩
  intro _
  apply ite_all
  · intro h2
    exact opCALL_even c op he (hj (Or.inr h2))
  intro _
  apply ite_all
  · intro _
    repeat' first
      | exact some_ite_all _ _ _ _
          (Near_even c _ (Near_skip c) he) he
      | (apply bind_all; intro _)
  intro _
  apply ite_all
  · intro _
    repeat' first
      | exact some_ite_all _ _ _ _
          (Near_even c _ (Near_skip c) he) he
      | (apply bind_all; intro _)
  intro _
  apply ite_all
  · intro _
    repeat' first
      | exact some_ite_all _ _ _ _
          (Near_even c _ (Near_skip c) he) he
      | (apply bind_all; intro _)
  intro _
  apply ite_all
  · intro _
    repeat' first
      | exact some_all _ _
          (Near_even c _ ⟨by with_reducible rfl, Or.inl (by with_reducible rfl)⟩ he)
      | (apply bind_all; intro _)
  intro _
  apply ite_all
  · intro _
    repeat' first
      | exact some_all _ _
          (Near_even c _ ⟨by with_reducible rfl, Or.inl (by with_reducible rfl)⟩ he)
      | (apply bind_all; intro _)
  intro _
  apply ite_all
  · intro _
    exact fun c1 h => Near_even c c1 (opALU_near c op c1 h) he
  intro _
  apply ite_all
  · intro _
    repeat' first
      | exact some_ite_all _ _ _ _
          (Near_even c _ (Near_skip c) he) he
      | (apply bind_all; intro _)
  intro _
  apply ite_all
  · intro _
    exact some_all _ _
      (Near_even c _ ⟨by with_reducible rfl, Or.inl (by with_reducible rfl)⟩ he)
  intro _
  apply ite_all
  · intro hB
    apply bind_all_of
    intro v0 hv0
    have hv := (index_some _ _ _ _ hv0).2
    have hbb := hb hB
    refine some_all _ _ ⟨?_, he.2⟩
    show ((op &&& 0x0FFF) + v0) % 65536 % 2 = 0
    rw [hv]
    omega
  intro _
  apply ite_all
  · intro _
    repeat' first
      | exact some_all _ _
          (Near_even c _ ⟨by with_reducible rfl, Or.inl (by with_reducible rfl)⟩ he)
      | (apply bind_all; intro _)
  intro _
  apply ite_all
  · intro _
    exact fun c1 h => Near_even c c1 (opDRW_near c op c1 h) he
  intro _
  apply ite_all
  · intro _
    exact fun c1 h => Near_even c c1 (opKEY_near c op c1 h) he
  intro _
  apply ite_all
  · intro _
    exact fun c1 h => Near_even c c1 (opF_near c op c1 h) he
  intro _
  exact some_all _ _ he

theorem Cycle_even (c c1 : Chip8) (rnd : Nat) (he : EvenPC c) (hj : jumpTargetEven c = true)
    (h : Cycle c rnd = some c1) : EvenPC c1 := by
  unfold Cycle at h
  simp only [Option.bind_eq_bind] at h
  cases hf : fetch c with
  | none => rw [hf] at h; simp at h
  | some op =>
    rw [hf] at h
    unfold jumpTargetEven at hj
    rw [hf] at hj
    simp only at hj
    have he1 : EvenPC { c with pc := (c.pc + 2) % 65536 } :=
      ⟨by show (c.pc + 2) % 65536 % 2 = 0; have := he.1; omega, he.2⟩
    refine execute_even _ op rnd he1 ?_ ?_ c1 h
    · intro h12
      rw [if_pos h12] at hj
      simpa using hj
    · intro hB
      have hn : ¬(op &&& 0xF000 = 0x1000 ∨ op &&& 0xF000 = 0x2000) := by omega
      rw [if_neg hn, if_pos hB] at hj
      simpa using hj

theorem driverStep_even (c c1 : Chip8) (s : DriverStep) (he : EvenPC c)
    (hj : ∀ rnd, s = DriverStep.cycle rnd → jumpTargetEven c = true)
    (h : driverStep c s = some c1) : EvenPC c1 := by
  cases s with
  | setKeys ks =>
    cases h
    exact he
  | cycle rnd => exact Cycle_even c c1 rnd he (hj rnd rfl) h
  | tick =>
    simp only [driverStep, UpdateTimers_eq] at h
    cases h
    exact he
  | clearDraw =>
    cases h
    exact he

theorem drive_even (steps : List DriverStep) :
    ∀ c c1, EvenPC c → evenTargetsAlong c steps = true → drive c steps = some c1 → EvenPC c1 := by
  induction steps with
  | nil =>
    intro c c1 he _ h
    cases h
    exact he
  | cons s rest ih =>
    intro c c1 he ht h
    unfold drive at h
    rw [List.foldlM_cons] at h
    unfold evenTargetsAlong at ht
    rw [Bool.and_eq_true] at ht
    cases hds : driverStep c s with
    | none => rw [hds] at h; simp at h
    | some c2 =>
      rw [hds] at h
      have ht2 := ht.2
      rw [hds] at ht2
      refine ih c2 c1 (driverStep_even c c2 s he ?_ hds) ht2 h
      intro rnd hs
      have ht1 := ht.1
      rw [hs] at ht1
      exact ht1

theorem LoadROM_frame (c c0 : Chip8) (file : Option (List Nat)) (err : Option LoadError)
    (h : LoadROM c file = some (c0, err)) : c0.pc = c.pc ∧ c0.stack = c.stack := by
  unfold LoadROM at h
  cases file with
  | none =>
    cases h
    exact ⟨rfl, rfl⟩
  | some rom =>
    simp only at h
    split at h
    · cases h
      exact ⟨rfl, rfl⟩
    · cases hc : copyROM rom c.memory with
      | none => rw [hc] at h; simp at h
      | some m =>
        rw [hc] at h
        cases h
        exact ⟨rfl, rfl⟩

/-- C17 (amended). From the freshly constructed state, after `LoadROM` of any
file (whatever it returns) and any run of the driver loop that raises no runtime
error (keypad writes, `Cycle` calls, timer ticks, redraw-flag resets, in any
order and number), PC is even, provided every `Cycle` of the run starts at an
instruction whose jump target is even: `nnn` for `1nnn` and `2nnn`, `nnn + V0`
for `Bnnn` (`evenTargetsAlong`). -/
theorem PC_even (file : Option (List Nat)) (err : Option LoadError) (c0 c : Chip8)
    (steps : List DriverStep)
    (hload : LoadROM NewChip8 file = some (c0, err))
    (ht : evenTargetsAlong c0 steps = true)
    (hrun : drive c0 steps = some c) : c.pc % 2 = 0 := by
  obtain ⟨hpc, hst⟩ := LoadROM_frame NewChip8 c0 file err hload
  have he : EvenPC c0 := by
    refine ⟨?_, ?_⟩
    · rw [hpc]
      rfl
    · intro k _
      rw [hst]
      rfl
  exact (drive_even steps c0 c he ht hrun).1

theorem PC_even_witness :
    LoadROM NewChip8 (some [0x12, 0x04]) = some (jumpEvenEx, none) ∧
    evenTargetsAlong jumpEvenEx frameEx = true ∧
    drive jumpEvenEx frameEx = some jumpEvenEnd ∧
    jumpEvenEnd.pc = 0x204 ∧ jumpEvenEnd.pc % 2 = 0 :=
  ⟨rfl, rfl, rfl, rfl, PC_even (some [0x12, 0x04]) none jumpEvenEx jumpEvenEnd frameEx rfl rfl rfl⟩

/-- C17 as stated fails: the two-byte program `12 01` loads without error and
one `Cycle` (no runtime error) executes `JP 0x201`, leaving PC = 0x201, odd. -/
theorem PC_even_counterexample :
    LoadROM NewChip8 (some [0x12, 0x01]) = some (jumpOddCex, none) ∧
    ∃ c, Cycle jumpOddCex 0 = some c ∧ c.pc = 0x201 ∧ c.pc % 2 = 1 :=
  ⟨rfl, _, rfl, rfl, rfl⟩
end Chip8VM
